import Mathlib

/-!
# Verification of the Pikafish position core (`src/position.cpp`)

This file shallowly embeds the position core of the Xiangqi engine: the
board/bitboard data model, `do_move`/`undo_move`, legality tests, the static
exchange evaluator, the repetition detector and the chase detector, and proves
the frozen claims about them.

Bitboards are embedded as `Nat` (the C++ code uses a 128-bit integer; all board
sets live in bits `0..89`).  Squares are `Nat` in `[0, 90)`, `s = 9*rank + file`
(`make_square(f, r) = 9*r + f` in the source).  Pieces use the source encoding
given by the string `" RACPNBK racpnbk"`: piece = kind + 8*color.

The geometry oracle (`bitboard.h/.cpp`) and the inline `Position` accessors
(`position.h`) are not part of the provided sources; every definition coming
from there is marked `Modelled from the spec:` and follows §3/§4.1 of the
specification (and the usage visible in `position.cpp`).
-/

namespace Pikafish

/-- Bitboards: one bit per square, squares `0..89`; the C++ type is 128 bits
wide, so complement is taken with respect to a 128-bit mask. -/
abbrev Bitboard := Nat

/-- Colors: `WHITE = 0`, `BLACK = 1` (source `enum Color`). -/
abbrev Color := Nat

def WHITE : Color := 0
def BLACK : Color := 1

/-- Piece kinds, from the source string `" RACPNBK racpnbk"`:
`ROOK=1, ADVISOR=2, CANNON=3, PAWN=4, KNIGHT=5, BISHOP=6, KING=7`. -/
abbrev PieceType := Nat

def NO_PIECE_TYPE : PieceType := 0
def ROOK : PieceType := 1
def ADVISOR : PieceType := 2
def CANNON : PieceType := 3
def PAWN : PieceType := 4
def KNIGHT : PieceType := 5
def BISHOP : PieceType := 6
def KING : PieceType := 7

/-- A piece is `(color, kind)`; encoded as `kind + 8*color`, `NO_PIECE = 0`. -/
abbrev Piece := Nat

def NO_PIECE : Piece := 0

/-- Modelled from the spec: `type_of(pc)` is the low three bits of the
encoding given by the index into `" RACPNBK racpnbk"`. -/
def type_of (pc : Piece) : PieceType := pc % 8

/-- Modelled from the spec: `color_of(pc)` is the high bit of the encoding. -/
def color_of (pc : Piece) : Color := pc / 8

/-- Modelled from the spec: `make_piece(c, pt)`. -/
def make_piece (c : Color) (pt : PieceType) : Piece := 8 * c + pt

/-- Modelled from the spec: the opposite color (`~c` in the source). -/
def flipColor (c : Color) : Color := 1 - c

/-- Modelled from the spec: a move is a compact integer carrying `from` and
`to`, each a square `0..89`; `MOVE_NONE = 0`.  The destination occupies the
low seven bits. -/
abbrev Move := Nat

def MOVE_NONE : Move := 0

/-- Modelled from the spec: the origin square of a move. -/
def from_sq (m : Move) : Nat := (m >>> 7) % 128

/-- Modelled from the spec: the destination square of a move. -/
def to_sq (m : Move) : Nat := m % 128

/-- Modelled from the spec: build a move from origin and destination. -/
def mkMove (f t : Nat) : Move := f * 128 + t

/-- File of a square (`A..I` as `0..8`). -/
def fileOf (s : Nat) : Nat := s % 9

/-- Rank of a square (`0..9`). -/
def rankOf (s : Nat) : Nat := s / 9

/-- `make_square(f, r) = 9*r + f`. -/
def mkSq (f r : Nat) : Nat := 9 * r + f

/-- The singleton bitboard of a square (`square_bb`). -/
def sqBB (s : Nat) : Bitboard := 1 <<< s

/-- The all-ones mask of the 128-bit bitboard type. -/
def FULL128 : Bitboard := 2 ^ 128 - 1

/-- Bitboard complement (`~b` on the 128-bit type). -/
def bbNot (b : Bitboard) : Bitboard := FULL128 ^^^ (b &&& FULL128)

/-- Bitboard of a list of squares. -/
def bbOf (l : List Nat) : Bitboard := l.foldr (fun s acc => acc ||| sqBB s) 0

/-- The squares of a bitboard in increasing order (the order produced by
repeated `pop_lsb`). -/
def squaresOf (b : Bitboard) : List Nat := (List.range 90).filter (fun s => b.testBit s)

/-- `popcount` restricted to the board (all board sets live in bits `0..89`). -/
def popcount (b : Bitboard) : Nat := (squaresOf b).length

/-- `more_than_one`: at least two bits set. -/
def more_than_one (b : Bitboard) : Bool := b &&& (b - 1) != 0

/-- The least-significant set square of a board set (`lsb`); `90` when empty. -/
def lsbSq (b : Bitboard) : Nat := (List.range 90).findIdx (fun s => b.testBit s)

/-- `least_significant_square_bb b = square_bb(lsb(b))`. -/
def least_significant_square_bb (b : Bitboard) : Bitboard := sqBB (lsbSq b)

/-- Modelled from the spec: own-half masks — White owns ranks `0..4`, Black
ranks `5..9` (the river separates ranks 4 and 5). -/
def HalfBB (c : Color) : Bitboard :=
  bbOf ((List.range 90).filter (fun s => if c = WHITE then rankOf s ≤ 4 else 5 ≤ rankOf s))

/-- Modelled from the spec: `file_bb f` — all squares of file `f`. -/
def file_bb (f : Nat) : Bitboard := bbOf ((List.range 90).filter (fun s => fileOf s = f))

/-- The palace: files `3..5`, ranks `0..2` (White) and `7..9` (Black). -/
def inPalace (s : Nat) : Bool :=
  s < 90 && 3 ≤ fileOf s && fileOf s ≤ 5 && (rankOf s ≤ 2 || 7 ≤ rankOf s)

/-- Two distinct squares on a common rank or file. -/
def alignedRF (a b : Nat) : Bool :=
  a != b && (fileOf a = fileOf b || rankOf a = rankOf b)

/-- The squares strictly between two squares of a common rank or file. -/
def squaresBetween (a b : Nat) : List Nat :=
  (List.range 90).filter (fun s =>
    (fileOf a = fileOf b && fileOf s = fileOf a
      && min (rankOf a) (rankOf b) < rankOf s && rankOf s < max (rankOf a) (rankOf b))
    || (rankOf a = rankOf b && fileOf a != fileOf b && rankOf s = rankOf a
      && min (fileOf a) (fileOf b) < fileOf s && fileOf s < max (fileOf a) (fileOf b)))

/-- The number of occupied squares strictly between `a` and `b`. -/
def occBetween (a b : Nat) (occ : Bitboard) : Nat :=
  ((squaresBetween a b).filter (fun s => occ.testBit s)).length

/-- Modelled from the spec: rook attacks — rank and file sliding, stopping at
(and including) the first occupied square.  Equivalently: the aligned squares
with no occupied square strictly between. -/
def rookAtt (s : Nat) (occ : Bitboard) : Bitboard :=
  bbOf ((List.range 90).filter (fun t => alignedRF s t && occBetween s t occ = 0))

/-- Modelled from the spec: cannon attacks — like a rook but hopping exactly
one intervening piece (the screen).  Equivalently: the aligned squares with
exactly one occupied square strictly between (the source's sliding generator
marks every square past the screen up to and including the second occupied
square). -/
def cannonAtt (s : Nat) (occ : Bitboard) : Bitboard :=
  bbOf ((List.range 90).filter (fun t => alignedRF s t && occBetween s t occ = 1))

/-- The eight knight offsets as `(Δfile, Δrank)` pairs. -/
def knightDeltas : List (Int × Int) :=
  [(1, 2), (2, 1), (2, -1), (1, -2), (-1, -2), (-2, -1), (-2, 1), (-1, 2)]

/-- The square at `(file s + df, rank s + dr)`, if it is on the board. -/
def shiftSq (s : Nat) (df dr : Int) : Option Nat :=
  let f : Int := (fileOf s : Int) + df
  let r : Int := (rankOf s : Int) + dr
  if 0 ≤ f ∧ f ≤ 8 ∧ 0 ≤ r ∧ r ≤ 9 then some (9 * r.toNat + f.toNat) else none

/-- The sign of an integer, as `-1`, `0` or `1`. -/
def isign (x : Int) : Int := if x > 0 then 1 else if x < 0 then -1 else 0

/-- Modelled from the spec: Xiangqi horse attacks from `s` — the eight knight
offsets, each blocked by an adjacent "leg" square (the orthogonal neighbour of
`s` toward the target). -/
def knightAtt (s : Nat) (occ : Bitboard) : Bitboard :=
  bbOf (knightDeltas.filterMap (fun d =>
    let leg := shiftSq s (if d.1.natAbs = 2 then isign d.1 else 0)
                         (if d.2.natAbs = 2 then isign d.2 else 0)
    match leg, shiftSq s d.1 d.2 with
    | some l, some t => if occ.testBit l then none else some t
    | _, _ => none))

/-- Modelled from the spec: `attacks_bb<KNIGHT_TO>(s, occ)` — the squares from
which a horse attacks `s` under occupancy `occ`. -/
def knightToAtt (s : Nat) (occ : Bitboard) : Bitboard :=
  bbOf ((List.range 90).filter (fun t => (knightAtt t occ).testBit s))

/-- Modelled from the spec: elephant attacks — two-step diagonal, blocked by
the midpoint, never crossing the river. -/
def bishopAtt (s : Nat) (occ : Bitboard) : Bitboard :=
  bbOf ([((2 : Int), (2 : Int)), (2, -2), (-2, -2), (-2, 2)].filterMap (fun d =>
    match shiftSq s (d.1 / 2) (d.2 / 2), shiftSq s d.1 d.2 with
    | some m, some t =>
        if occ.testBit m then none
        else if (rankOf t ≤ 4) = (rankOf s ≤ 4) then some t else none
    | _, _ => none))

/-- Modelled from the spec: advisor attacks — one diagonal step inside the
palace. -/
def advisorAtt (s : Nat) : Bitboard :=
  bbOf ([((1 : Int), (1 : Int)), (1, -1), (-1, -1), (-1, 1)].filterMap (fun d =>
    match shiftSq s d.1 d.2 with
    | some t => if inPalace s && inPalace t then some t else none
    | none => none))

/-- Modelled from the spec: king attacks — one orthogonal step inside the
palace (the flying-general attack is handled separately with rook attacks). -/
def kingAtt (s : Nat) : Bitboard :=
  bbOf ([((1 : Int), (0 : Int)), (-1, 0), (0, 1), (0, -1)].filterMap (fun d =>
    match shiftSq s d.1 d.2 with
    | some t => if inPalace s && inPalace t then some t else none
    | none => none))

/-- Modelled from the spec: `pawn_attacks_bb(c, s)` — forward step, plus
sideways steps after crossing the river. -/
def pawnAtt (c : Color) (s : Nat) : Bitboard :=
  let fwd := if c = WHITE then shiftSq s 0 1 else shiftSq s 0 (-1)
  let crossed := if c = WHITE then 5 ≤ rankOf s else rankOf s ≤ 4
  bbOf ((fwd.toList ++ if crossed then (shiftSq s 1 0).toList ++ (shiftSq s (-1) 0).toList else []))

/-- Modelled from the spec: `pawn_attacks_to_bb(c, s)` — squares from which a
pawn of color `c` attacks `s`. -/
def pawnAttTo (c : Color) (s : Nat) : Bitboard :=
  bbOf ((List.range 90).filter (fun t => (pawnAtt c t).testBit s))

/-- Modelled from the spec: the runtime-dispatched `attacks_bb(pt, s, occ)`. -/
def attacks_bb (pt : PieceType) (s : Nat) (occ : Bitboard) : Bitboard :=
  if pt = ROOK then rookAtt s occ
  else if pt = CANNON then cannonAtt s occ
  else if pt = KNIGHT then knightAtt s occ
  else if pt = BISHOP then bishopAtt s occ
  else if pt = ADVISOR then advisorAtt s
  else if pt = KING then kingAtt s
  else 0

/-- Two squares a knight jump apart (the empty-board knight relation, which is
symmetric). -/
def knightPair (a b : Nat) : Bool := (knightAtt a 0).testBit b

/-- Modelled from the spec: `between_bb(a, b)` — for aligned squares, the
squares strictly between them; for squares a knight jump apart, the leg square
of the jump from `b` to `a` (the diagonal neighbour of `a` toward `b`); in all
cases the second endpoint `b` is included (src/position.cpp removes it
explicitly with `^ square_bb(oppKing)` in `chased`). -/
def between_bb (a b : Nat) : Bitboard :=
  (if alignedRF a b then bbOf (squaresBetween a b)
   else if knightPair a b then
     bbOf ((shiftSq a (isign ((fileOf b : Int) - (fileOf a : Int)))
                      (isign ((rankOf b : Int) - (rankOf a : Int)))).toList)
   else 0) ||| sqBB b

/-- Modelled from the spec: `line_bb(a, b)` — the full rank or file through two
aligned squares, both included; empty otherwise. -/
def line_bb (a b : Nat) : Bitboard :=
  if a ≠ b ∧ fileOf a = fileOf b then
    bbOf ((List.range 90).filter (fun s => fileOf s = fileOf a))
  else if a ≠ b ∧ rankOf a = rankOf b then
    bbOf ((List.range 90).filter (fun s => rankOf s = rankOf a))
  else 0

/-- `aligned(a, b, c)`: `c` lies on `line_bb(a, b)`. -/
def aligned (a b c : Nat) : Bool := (line_bb a b).testBit c

/-- Modelled from the spec: the mask of `KnightMagics[s]` — the squares whose
occupancy can block a horse standing on `s` (its orthogonal neighbours). -/
def knightMagicMask (s : Nat) : Bitboard :=
  bbOf ([((1 : Int), (0 : Int)), (-1, 0), (0, 1), (0, -1)].filterMap (fun d => shiftSq s d.1 d.2))

/-- Modelled from the spec: the mask of `KnightToMagics[s]` — the squares whose
occupancy can block a horse jumping to `s` (its diagonal neighbours). -/
def knightToMagicMask (s : Nat) : Bitboard :=
  bbOf ([((1 : Int), (1 : Int)), (1, -1), (-1, -1), (-1, 1)].filterMap (fun d => shiftSq s d.1 d.2))

/-! ## Values and Zobrist keys -/

/-- Modelled from the spec: midgame piece values; the spec fixes only the
order `rook > cannon ≈ knight > bishop ≈ advisor > pawn`, king `0`; the exact
numbers are parameters of the core and are chosen here as documented. -/
def RookValueMg : Int := 1300

def AdvisorValueMg : Int := 200

def CannonValueMg : Int := 650

def PawnValueMg : Int := 100

def KnightValueMg : Int := 650

def BishopValueMg : Int := 200

/-- Modelled from the spec: `PieceValue[MG][pc]`, looked up through the kind
of the piece (king and `NO_PIECE` have value `0`). -/
def PieceValueMg (pc : Piece) : Int :=
  if type_of pc = ROOK then RookValueMg
  else if type_of pc = ADVISOR then AdvisorValueMg
  else if type_of pc = CANNON then CannonValueMg
  else if type_of pc = PAWN then PawnValueMg
  else if type_of pc = KNIGHT then KnightValueMg
  else if type_of pc = BISHOP then BishopValueMg
  else 0

/-- Modelled from the spec: the process-wide Zobrist table `Zobrist::psq`,
seeded deterministically at startup; the properties proved below do not depend
on the values, only on the table being a fixed function. -/
def zobristPsq (pc s : Nat) : Nat := (pc * 0x9E3779B97F4A7C15 + s * 0xC2B2AE3D27D4EB4F + 0x165667B19E3779F9) % 2 ^ 64

/-- Modelled from the spec: `Zobrist::side`. -/
def zobristSide : Nat := 0x2545F4914F6CDD1D

/-- `VALUE_DRAW` (modelled from the spec). -/
def VALUE_DRAW : Int := 0

/-- `VALUE_MATE` (modelled from the spec). -/
def VALUE_MATE : Int := 32000

/-- `SQ_NONE`, used in the accumulator dirty-piece record for removals. -/
def SQ_NONE : Nat := 90

/-! ## The data model: `StateInfo` and `Position`

The C++ `StateInfo` is a struct whose prefix up to (but not including) `key`
is snapshot-copied by `do_move` (`std::memcpy(&newSt, st, offsetof(StateInfo,
key))`); per the spec's design notes the carried fields are `checkSquares`,
`blockersForKing`, `pinners`, `nonPawnMaterial`, `pliesFromNull` (plus
`previous` and `move`, which are overwritten explicitly).  The back-pointer
chain `st → previous → …` is embedded as a list whose head is the current
state. -/

structure StateInfo where
  checkSquares : List Bitboard := List.replicate 8 0
  blockersForKing : List Bitboard := [0, 0]
  pinners : List Bitboard := [0, 0]
  nonPawnMaterial : List Int := [0, 0]
  pliesFromNull : Nat := 0
  move : Move := MOVE_NONE
  key : Nat := 0
  checkersBB : Bitboard := 0
  capturedPiece : Piece := NO_PIECE
  chasedBB : Bitboard := 0
  dirtyNum : Nat := 0
  dp0 : Nat × Nat × Nat := (NO_PIECE, SQ_NONE, SQ_NONE)
  dp1 : Nat × Nat × Nat := (NO_PIECE, SQ_NONE, SQ_NONE)
  accComputed : Bool × Bool := (false, false)
deriving Repr, DecidableEq, Inhabited

structure Position where
  board : List Piece := List.replicate 90 NO_PIECE
  byKind : List Bitboard := List.replicate 8 0
  byColor : List Bitboard := [0, 0]
  pieceCount : List Nat := List.replicate 16 0
  sideToMove : Color := WHITE
  gamePly : Nat := 0
  stack : List StateInfo := [{}]
  nodes : Nat := 0
deriving Repr, DecidableEq, Inhabited

/-- The current `StateInfo` (the head of the back-linked chain `st`). -/
def stHead (pos : Position) : StateInfo := pos.stack.headD default

/-- `piece_on s` (modelled from the spec: `board[s]`). -/
def piece_on (pos : Position) (s : Nat) : Piece := pos.board.getD s NO_PIECE

/-- `empty s`. -/
def sqEmpty (pos : Position) (s : Nat) : Bool := piece_on pos s = NO_PIECE

/-- `moved_piece m = piece_on (from_sq m)`. -/
def moved_piece (pos : Position) (m : Move) : Piece := piece_on pos (from_sq m)

/-- `capture m`: the destination square is occupied (modelled from the spec:
cannon captures go through the generic path when `to` is occupied). -/
def capture (pos : Position) (m : Move) : Bool := ¬ sqEmpty pos (to_sq m)

/-- `pieces()` — the full occupancy. -/
def piecesAll (pos : Position) : Bitboard := pos.byColor.getD 0 0 ||| pos.byColor.getD 1 0

/-- `pieces(c)`. -/
def piecesC (pos : Position) (c : Color) : Bitboard := pos.byColor.getD c 0

/-- `pieces(pt)`. -/
def piecesT (pos : Position) (pt : PieceType) : Bitboard := pos.byKind.getD pt 0

/-- `pieces(c, pt)`. -/
def piecesCT (pos : Position) (c : Color) (pt : PieceType) : Bitboard :=
  piecesC pos c &&& piecesT pos pt

/-- `pieces(c, pt1, pt2)`. -/
def piecesCT2 (pos : Position) (c : Color) (pt1 pt2 : PieceType) : Bitboard :=
  piecesC pos c &&& (piecesT pos pt1 ||| piecesT pos pt2)

/-- `pieces(c, pt1, pt2, pt3)`. -/
def piecesCT3 (pos : Position) (c : Color) (pt1 pt2 pt3 : PieceType) : Bitboard :=
  piecesC pos c &&& (piecesT pos pt1 ||| piecesT pos pt2 ||| piecesT pos pt3)

/-- `square<KING>(c)` — the king square of a color (the least significant
square of the king bitboard; `90` if absent). -/
def kingSq (pos : Position) (c : Color) : Nat := lsbSq (piecesCT pos c KING)

/-- The getter `blockers_for_king(c)`, reading the current `StateInfo`. -/
def blockersForKingOf (pos : Position) (c : Color) : Bitboard :=
  (stHead pos).blockersForKing.getD c 0

/-- The getter `pinners(c)`, reading the current `StateInfo`. -/
def pinnersOf (pos : Position) (c : Color) : Bitboard := (stHead pos).pinners.getD c 0

/-- The getter `check_squares(pt)`, reading the current `StateInfo`. -/
def check_squares (pos : Position) (pt : PieceType) : Bitboard :=
  (stHead pos).checkSquares.getD pt 0

/-- The getter `captured_piece()`. -/
def captured_piece (pos : Position) : Piece := (stHead pos).capturedPiece

/-- Modelled from the spec: `put_piece pc s` — writes the board square and
or-s the square into the kind, color and count views. -/
def put_piece (pos : Position) (pc : Piece) (s : Nat) : Position :=
  { pos with
    board := pos.board.set s pc
    byKind := pos.byKind.set (type_of pc) (pos.byKind.getD (type_of pc) 0 ||| sqBB s)
    byColor := pos.byColor.set (color_of pc) (pos.byColor.getD (color_of pc) 0 ||| sqBB s)
    pieceCount := pos.pieceCount.set pc (pos.pieceCount.getD pc 0 + 1) }

/-- Modelled from the spec: `remove_piece s` — xors the square out of the
kind and color views of the piece standing on `s` and clears the board square. -/
def remove_piece (pos : Position) (s : Nat) : Position :=
  let pc := piece_on pos s
  { pos with
    board := pos.board.set s NO_PIECE
    byKind := pos.byKind.set (type_of pc) (pos.byKind.getD (type_of pc) 0 ^^^ sqBB s)
    byColor := pos.byColor.set (color_of pc) (pos.byColor.getD (color_of pc) 0 ^^^ sqBB s)
    pieceCount := pos.pieceCount.set pc (pos.pieceCount.getD pc 0 - 1) }

/-- Modelled from the spec: `move_piece from to` — xors the from/to pair into
the kind and color views and rewrites the two board squares. -/
def move_piece (pos : Position) (fromSq toSq : Nat) : Position :=
  let pc := piece_on pos fromSq
  let fromTo := sqBB fromSq ||| sqBB toSq
  { pos with
    board := (pos.board.set fromSq NO_PIECE).set toSq pc
    byKind := pos.byKind.set (type_of pc) (pos.byKind.getD (type_of pc) 0 ^^^ fromTo)
    byColor := pos.byColor.set (color_of pc) (pos.byColor.getD (color_of pc) 0 ^^^ fromTo) }

/-! ## Attack aggregation (src/position.cpp lines 315-341) -/

/-- `Position::attackers_to(s, occupied)` — all pieces of both colors
attacking `s` under the given occupancy (src/position.cpp:318). -/
def attackers_to (pos : Position) (s : Nat) (occupied : Bitboard) : Bitboard :=
  (pawnAttTo WHITE s &&& piecesCT pos WHITE PAWN)
  ||| (pawnAttTo BLACK s &&& piecesCT pos BLACK PAWN)
  ||| (knightToAtt s occupied &&& piecesT pos KNIGHT)
  ||| (rookAtt s occupied &&& piecesT pos ROOK)
  ||| (cannonAtt s occupied &&& piecesT pos CANNON)
  ||| (bishopAtt s occupied &&& piecesT pos BISHOP)
  ||| (advisorAtt s &&& piecesT pos ADVISOR)
  ||| (kingAtt s &&& piecesT pos KING)

/-- `Position::checkers_to(c, s, occupied)` — the pieces of color `c` giving
check to square `s` (src/position.cpp:335). -/
def checkers_to (pos : Position) (c : Color) (s : Nat) (occupied : Bitboard) : Bitboard :=
  ((pawnAttTo c s &&& piecesT pos PAWN)
   ||| (knightToAtt s occupied &&& piecesT pos KNIGHT)
   ||| (rookAtt s occupied &&& piecesT pos ROOK)
   ||| (cannonAtt s occupied &&& piecesT pos CANNON)) &&& piecesC pos c

/-! ## Pin / blocker analysis (src/position.cpp lines 288-312) -/

/-- `Position::blockers_for_king(sliders, s, pinners)` — returns the pair
`(blockers, pinners)` (the C++ passes `pinners` by reference). -/
def blockers_for_king (pos : Position) (sliders : Bitboard) (s : Nat) :
    Bitboard × Bitboard :=
  let snipers := ((rookAtt s 0 &&& (piecesT pos ROOK ||| piecesT pos CANNON ||| piecesT pos KING))
                  ||| (knightAtt s 0 &&& piecesT pos KNIGHT)) &&& sliders
  let occupancy := piecesAll pos ^^^ (snipers &&& bbNot (piecesT pos CANNON))
  (squaresOf snipers).foldl (fun acc sniperSq =>
    let isCannon := type_of (piece_on pos sniperSq) = CANNON
    let b := between_bb s sniperSq &&& (if isCannon then piecesAll pos ^^^ sqBB sniperSq else occupancy)
    if b ≠ 0 ∧ ((¬ isCannon ∧ ¬ more_than_one b) ∨ (isCannon ∧ popcount b = 2)) then
      (acc.1 ||| b,
       if b &&& piecesC pos (color_of (piece_on pos s)) ≠ 0 then acc.2 ||| sqBB sniperSq else acc.2)
    else acc) (0, 0)

/-! ## Legality (src/position.cpp lines 346-400) -/

/-- `Position::legal(m)` (src/position.cpp:346). -/
def legal (pos : Position) (m : Move) : Bool :=
  let us := pos.sideToMove
  let fromSq := from_sq m
  let toSq := to_sq m
  let occupied := (piecesAll pos ^^^ sqBB fromSq) ||| sqBB toSq
  let ksq := if type_of (moved_piece pos m) = KING then toSq else kingSq pos us
  if rookAtt ksq occupied &&& piecesCT pos (flipColor us) KING ≠ 0 then false
  else if type_of (piece_on pos fromSq) = KING then
    checkers_to pos (flipColor us) toSq occupied = 0
  else
    checkers_to pos (flipColor us) (kingSq pos us) occupied &&& bbNot (sqBB toSq) = 0

/-- `Position::pseudo_legal(m)` (src/position.cpp:377). -/
def pseudo_legal (pos : Position) (m : Move) : Bool :=
  let us := pos.sideToMove
  let fromSq := from_sq m
  let toSq := to_sq m
  let pc := moved_piece pos m
  if pc = NO_PIECE ∨ color_of pc ≠ us then false
  else if piecesC pos us &&& sqBB toSq ≠ 0 then false
  else if type_of pc = PAWN then pawnAtt us fromSq &&& sqBB toSq ≠ 0
  else if type_of pc = CANNON ∧ ¬ capture pos m then
    rookAtt fromSq (piecesAll pos) &&& sqBB toSq ≠ 0
  else attacks_bb (type_of pc) fromSq (piecesAll pos) &&& sqBB toSq ≠ 0

/-! ## Chase detection (src/position.cpp lines 783-902) -/

/-- The local lambda `addChased` of `Position::chased` (src/position.cpp:797):
threads the accumulator `b` explicitly. -/
def addChased (pos : Position) (stm : Color) (pins : Bitboard)
    (attackerSq : Nat) (attackerType : PieceType) (attacks0 b : Bitboard) : Bitboard :=
  if attacks0 &&& bbNot b ≠ 0 then
    let attacks1 := attacks0 &&&
      bbNot (piecesCT2 pos stm KING PAWN ^^^ (piecesCT pos stm PAWN &&& HalfBB (flipColor stm)))
    let b1 := if attackerType = KNIGHT ∨ attackerType = CANNON then
        b ||| (attacks1 &&& piecesCT pos stm ROOK) else b
    let b2 := if attackerType = BISHOP ∨ attackerType = ADVISOR then
        b1 ||| (attacks1 &&& piecesCT3 pos stm ROOK CANNON KNIGHT) else b1
    let attacks2 := if attackerType = KNIGHT then
        attacks1 &&& (bbNot (knightToAtt attackerSq (piecesAll pos)) ||| pins)
      else attacks1 &&& (bbNot (piecesCT pos stm attackerType) ||| pins)
    (squaresOf attacks2).foldl (fun bacc s =>
      let roots := attackers_to pos s (piecesAll pos ^^^ sqBB attackerSq)
                   &&& piecesC pos stm &&& bbNot pins
      if roots = 0 ∨ (roots = piecesCT pos stm KING ∧
          rookAtt (kingSq pos (flipColor stm)) (piecesAll pos ^^^ sqBB attackerSq) &&& sqBB s ≠ 0)
      then bacc ||| sqBB s else bacc) b2
  else b

/-- The pin set used by `Position::chased()` (src/position.cpp:788-795): the
side-to-move's king blockers, augmented by the own pieces standing on the open
file between the two facing kings when at most one piece stands there. -/
def chasedPins (pos : Position) : Bitboard :=
  let stm := pos.sideToMove
  let ourKing := kingSq pos stm
  let oppKing := kingSq pos (flipColor stm)
  let pins0 := blockersForKingOf pos stm
  if file_bb (fileOf ourKing) &&& file_bb (fileOf oppKing) ≠ 0 then
    let kingFilePieces := between_bb ourKing oppKing ^^^ sqBB oppKing
    if ¬ more_than_one (kingFilePieces &&& piecesAll pos) then
      pins0 ||| (kingFilePieces &&& piecesC pos stm)
    else pins0
  else pins0

/-- The "Direct attacks" section of `Position::chased()`
(src/position.cpp:843-851): chases created by the piece just moved. -/
def chasedDirect (pos : Position) (pins : Bitboard) : Bitboard :=
  let st := stHead pos
  let stm := pos.sideToMove
  let fromSq := from_sq st.move
  let toSq := to_sq st.move
  let movedKind := type_of (piece_on pos toSq)
  if movedKind ≠ KING ∧ movedKind ≠ PAWN then
    let direct0 := attacks_bb movedKind toSq (piecesAll pos) &&& piecesC pos stm
    let direct := if movedKind = ROOK ∨ movedKind = CANNON then
        direct0 &&& bbNot (line_bb fromSq toSq) else direct0
    addChased pos stm pins toSq movedKind direct 0
  else 0

/-- The "Discovered attacks" section of `Position::chased()`
(src/position.cpp:853-866): chases uncovered by vacating the from-square,
folded over the candidate discovery pieces, starting from the accumulator of
the direct-attack section. -/
def chasedDiscovered (pos : Position) (pins b1 : Bitboard) : Bitboard :=
  let st := stHead pos
  let stm := pos.sideToMove
  let fromSq := from_sq st.move
  let toSq := to_sq st.move
  let discoveryCandidates :=
    (knightMagicMask fromSq &&& piecesCT pos (flipColor stm) KNIGHT)
    ||| (knightToMagicMask fromSq &&& piecesCT pos (flipColor stm) BISHOP)
    ||| (rookAtt fromSq 0 &&& piecesCT2 pos (flipColor stm) CANNON ROOK)
    ||| (rookAtt toSq (piecesAll pos) &&& piecesCT pos (flipColor stm) CANNON)
  (squaresOf discoveryCandidates).foldl (fun bacc s =>
    let discoveryPiece := type_of (piece_on pos s)
    let discoveries := piecesC pos stm &&& attacks_bb discoveryPiece s (piecesAll pos)
      &&& bbNot (attacks_bb discoveryPiece s
            ((if st.capturedPiece ≠ NO_PIECE then piecesAll pos else piecesAll pos ^^^ sqBB toSq)
              ^^^ sqBB fromSq))
    addChased pos stm pins s discoveryPiece discoveries bacc) b1

/-- The "Changes in real roots and discovered checks" section of
`Position::chased()` (src/position.cpp:868-899), guarded by
`st->pliesFromNull > 0` in the source. -/
def chasedRoots (pos : Position) (b2 : Bitboard) : Bitboard :=
  let st := stHead pos
  let stm := pos.sideToMove
  let ourKing := kingSq pos stm
  if st.pliesFromNull > 0 then
    let prev := pos.stack.getD 1 default
    let newPins := st.blockersForKing.getD stm 0 &&& bbNot (prev.blockersForKing.getD stm 0)
                   &&& piecesC pos stm
    let b3 := (squaresOf newPins).foldl (fun bacc s =>
      let pinnedPiece := type_of (piece_on pos s)
      let fakeRooted0 := piecesC pos stm &&&
        bbNot (piecesCT2 pos stm KING PAWN ^^^ (piecesCT pos stm PAWN &&& HalfBB (flipColor stm)))
      let fakeRooted := if pinnedPiece = PAWN then fakeRooted0 &&& pawnAtt stm s
                        else fakeRooted0 &&& attacks_bb pinnedPiece s (piecesAll pos)
      (squaresOf fakeRooted).foldl (fun bacc2 s2 =>
        if attackers_to pos s2 (piecesAll pos) &&& piecesC pos (flipColor stm)
           &&& bbNot (blockersForKingOf pos (flipColor stm)) ≠ 0
        then bacc2 ||| sqBB s2 else bacc2) bacc) b2
    let newDiscoverers := st.blockersForKing.getD stm 0 &&& bbNot (prev.blockersForKing.getD stm 0)
                          &&& piecesC pos (flipColor stm)
    (squaresOf newDiscoverers).foldl (fun bacc s =>
      let discoveryPiece := type_of (piece_on pos s)
      let dAtt := if discoveryPiece = PAWN then piecesC pos stm &&& pawnAtt (flipColor stm) s
                  else piecesC pos stm &&& attacks_bb discoveryPiece s (piecesAll pos)
      let bacc1 := bacc ||| (dAtt &&& bbNot (kingAtt ourKing))
      let dAtt2 := dAtt &&& kingAtt ourKing
      (squaresOf dAtt2).foldl (fun bacc2 s2 =>
        if attackers_to pos s2 (piecesAll pos ^^^ sqBB s ^^^ sqBB ourKing)
           &&& piecesC pos (flipColor stm) &&& bbNot (sqBB s) ≠ 0
        then bacc2 ||| sqBB s2 else bacc2) bacc1) b3
  else b2

/-- `Position::chased()` (src/position.cpp:783-902) — the own pieces the side
to move now chases, given the move recorded in the current `StateInfo`: the
early `MOVE_NONE` return, then the three sections of the source body in order,
each threading the accumulator bitboard `b` of the source. -/
def chased (pos : Position) : Bitboard :=
  if (stHead pos).move = MOVE_NONE then 0 else
  let pins := chasedPins pos
  chasedRoots pos (chasedDiscovered pos pins (chasedDirect pos pins))

/-! ## Check info and state setup (src/position.cpp lines 174-217) -/

/-- A helper replacing the head `StateInfo` of the stack. -/
def setHead (pos : Position) (st : StateInfo) : Position :=
  { pos with stack := st :: pos.stack.tail }

/-- `Position::set_check_info(si)` (src/position.cpp:174) — recomputes the
blocker/pinner sets, the check squares, and the cached chase set of the head
state. -/
def set_check_info (pos : Position) : Position :=
  let bw := blockers_for_king pos (piecesC pos BLACK) (kingSq pos WHITE)
  let bb := blockers_for_king pos (piecesC pos WHITE) (kingSq pos BLACK)
  let ksq := kingSq pos (flipColor pos.sideToMove)
  let occ := piecesAll pos
  let st := stHead pos
  let st1 := { st with
    blockersForKing := [bw.1, bb.1]
    pinners := [bb.2, bw.2]
    checkSquares := [0, rookAtt ksq occ, 0, cannonAtt ksq occ, pawnAttTo pos.sideToMove ksq,
                     knightToAtt ksq occ, 0, 0] }
  let pos1 := setHead pos st1
  setHead pos1 { st1 with chasedBB := chased pos1 }

/-- `Position::set_state(si)` (src/position.cpp:196) — recomputes the hash
key, material, checkers and check info from scratch. -/
def set_state (pos : Position) : Position :=
  let st := stHead pos
  let key0 := (squaresOf (piecesAll pos)).foldl (fun k s => k ^^^ zobristPsq (piece_on pos s) s) 0
  let key1 := if pos.sideToMove = BLACK then key0 ^^^ zobristSide else key0
  let npm := fun c => (squaresOf (piecesAll pos)).foldl (fun v s =>
    let pc := piece_on pos s
    if type_of pc ≠ KING ∧ type_of pc ≠ PAWN ∧ color_of pc = c then v + PieceValueMg pc else v) 0
  let st1 := { st with
    key := key1
    nonPawnMaterial := [npm WHITE, npm BLACK]
    checkersBB := checkers_to pos (flipColor pos.sideToMove) (kingSq pos pos.sideToMove) (piecesAll pos)
    move := MOVE_NONE }
  set_check_info (setHead pos st1)

/-! ## Move execution and unwinding (src/position.cpp lines 437-612) -/

/-- `Position::do_move(m, newSt, givesCheck)` (src/position.cpp:437).  The
caller-supplied `newSt` storage becomes the new head of the state chain; its
prefix before `key` is copied from the old head, exactly as the source's
`memcpy` up to `offsetof(StateInfo, key)`. -/
def do_move (pos : Position) (m : Move) (givesCheck : Bool) : Position :=
  let st := stHead pos
  let k0 := st.key ^^^ zobristSide
  let newSt0 : StateInfo := { st with
    move := m
    pliesFromNull := st.pliesFromNull + 1
    accComputed := (false, false)
    dirtyNum := 1 }
  let us := pos.sideToMove
  let them := flipColor us
  let fromSq := from_sq m
  let toSq := to_sq m
  let pc := piece_on pos fromSq
  let captured := piece_on pos toSq
  let pos1 := if captured ≠ NO_PIECE then remove_piece pos toSq else pos
  let newSt1 := if captured ≠ NO_PIECE then
      { newSt0 with
        nonPawnMaterial := if type_of captured ≠ PAWN then
            newSt0.nonPawnMaterial.set them (newSt0.nonPawnMaterial.getD them 0 - PieceValueMg captured)
          else newSt0.nonPawnMaterial
        dirtyNum := 2
        dp1 := (captured, toSq, SQ_NONE) }
    else newSt0
  let k1 := if captured ≠ NO_PIECE then k0 ^^^ zobristPsq captured toSq else k0
  let k2 := k1 ^^^ zobristPsq pc fromSq ^^^ zobristPsq pc toSq
  let pos2 := move_piece pos1 fromSq toSq
  let newSt2 := { newSt1 with
    dp0 := (pc, fromSq, toSq)
    capturedPiece := captured
    key := k2
    checkersBB := if givesCheck then checkers_to pos2 us (kingSq pos2 them) (piecesAll pos2) else 0 }
  let pos3 := { pos2 with
    sideToMove := them
    gamePly := pos.gamePly + 1
    nodes := pos.nodes + 1
    stack := newSt2 :: pos.stack }
  set_check_info pos3

/-- `Position::undo_move(m)` (src/position.cpp:526) — the exact inverse,
reading only the current `StateInfo` and popping it. -/
def undo_move (pos : Position) (m : Move) : Position :=
  let us := flipColor pos.sideToMove
  let fromSq := from_sq m
  let toSq := to_sq m
  let pos1 := move_piece { pos with sideToMove := us } toSq fromSq
  let pos2 := if (stHead pos).capturedPiece ≠ NO_PIECE then
      put_piece pos1 (stHead pos).capturedPiece toSq
    else pos1
  { pos2 with stack := pos.stack.tail, gamePly := pos.gamePly - 1 }

/-- `Position::key_after(m)` (src/position.cpp:600) — the hash key of the
position after `m`, computed without touching any state. -/
def key_after (pos : Position) (m : Move) : Nat :=
  let fromSq := from_sq m
  let toSq := to_sq m
  let pc := piece_on pos fromSq
  let captured := piece_on pos toSq
  let k := (stHead pos).key ^^^ zobristSide
  let k1 := if captured ≠ NO_PIECE then k ^^^ zobristPsq captured toSq else k
  k1 ^^^ zobristPsq pc toSq ^^^ zobristPsq pc fromSq

/-! ## Static exchange evaluation (src/position.cpp lines 619-737) -/

/-- The `while (true)` exchange loop of `Position::see_ge`, with an explicit
fuel argument bounding the number of iterations (each iteration removes one
piece from `occupied`, so `90` always suffices). -/
def seeLoop (pos : Position) (toSq : Nat) :
    Nat → Color → Bitboard → Bitboard → Bitboard → Bitboard → Bool → Int → Bool
  | 0, _, _, _, _, _, res, _ => res
  | fuel + 1, stm0, attackers0, occupied, nonCannons, cannons, res, swap =>
    let stm := flipColor stm0
    let attackers := attackers0 &&& occupied
    let stmAttackers0 := attackers &&& piecesC pos stm
    if stmAttackers0 = 0 then res
    else
      let stmAttackers := if pinnersOf pos (flipColor stm) &&& occupied ≠ 0 then
          stmAttackers0 &&& bbNot (blockersForKingOf pos stm)
        else stmAttackers0
      if stmAttackers = 0 then res
      else
        let res1 := !res
        let resInt : Int := if res1 then 1 else 0
        if stmAttackers &&& piecesT pos PAWN ≠ 0 then
          let swap1 := PawnValueMg - swap
          if swap1 < resInt then res1
          else
            let occupied1 := occupied ^^^ least_significant_square_bb (stmAttackers &&& piecesT pos PAWN)
            let nonCannons1 := nonCannons ||| (rookAtt toSq occupied1 &&& piecesT pos ROOK)
            let cannons1 := cannonAtt toSq occupied1
            seeLoop pos toSq fuel stm (nonCannons1 ||| cannons1) occupied1 nonCannons1 cannons1 res1 swap1
        else if stmAttackers &&& piecesT pos BISHOP ≠ 0 then
          let swap1 := BishopValueMg - swap
          if swap1 < resInt then res1
          else
            let occupied1 := occupied ^^^ least_significant_square_bb (stmAttackers &&& piecesT pos BISHOP)
            seeLoop pos toSq fuel stm attackers occupied1 nonCannons cannons res1 swap1
        else if stmAttackers &&& piecesT pos ADVISOR ≠ 0 then
          let swap1 := AdvisorValueMg - swap
          if swap1 < resInt then res1
          else
            let occupied1 := occupied ^^^ least_significant_square_bb (stmAttackers &&& piecesT pos ADVISOR)
            let nonCannons1 := nonCannons ||| (knightToAtt toSq occupied1 &&& piecesT pos KNIGHT)
            seeLoop pos toSq fuel stm (nonCannons1 ||| cannons) occupied1 nonCannons1 cannons res1 swap1
        else if stmAttackers &&& piecesT pos CANNON ≠ 0 then
          let swap1 := CannonValueMg - swap
          if swap1 < resInt then res1
          else
            let occupied1 := occupied ^^^ least_significant_square_bb (stmAttackers &&& piecesT pos CANNON)
            let cannons1 := cannonAtt toSq occupied1
            seeLoop pos toSq fuel stm (nonCannons ||| cannons1) occupied1 nonCannons cannons1 res1 swap1
        else if stmAttackers &&& piecesT pos KNIGHT ≠ 0 then
          let swap1 := KnightValueMg - swap
          if swap1 < resInt then res1
          else
            let occupied1 := occupied ^^^ least_significant_square_bb (stmAttackers &&& piecesT pos KNIGHT)
            seeLoop pos toSq fuel stm attackers occupied1 nonCannons cannons res1 swap1
        else if stmAttackers &&& piecesT pos ROOK ≠ 0 then
          let swap1 := RookValueMg - swap
          if swap1 < resInt then res1
          else
            let occupied1 := occupied ^^^ least_significant_square_bb (stmAttackers &&& piecesT pos ROOK)
            let nonCannons1 := nonCannons ||| (rookAtt toSq occupied1 &&& piecesT pos ROOK)
            let cannons1 := cannonAtt toSq occupied1
            seeLoop pos toSq fuel stm (nonCannons1 ||| cannons1) occupied1 nonCannons1 cannons1 res1 swap1
        else -- KING: if we "capture" with the king but the opponent still has
             -- attackers, reverse the result.
          if attackers &&& bbNot (piecesC pos stm) ≠ 0 then !res1 else res1

/-- `Position::see_ge(m, threshold)` (src/position.cpp:619). -/
def see_ge (pos : Position) (m : Move) (threshold : Int) : Bool :=
  let fromSq := from_sq m
  let toSq := to_sq m
  let swap0 := PieceValueMg (piece_on pos toSq) - threshold
  if swap0 < 0 then false
  else
    let swap1 := PieceValueMg (piece_on pos fromSq) - swap0
    if swap1 ≤ 0 then true
    else
      let occupied := piecesAll pos ^^^ sqBB fromSq ^^^ sqBB toSq
      let stm := pos.sideToMove
      let attackers0 := attackers_to pos toSq occupied
      let attackers1 := if attackers0 &&& piecesCT pos stm KING ≠ 0 then
          attackers0 ||| (rookAtt toSq (occupied &&& bbNot (piecesT pos ROOK))
                          &&& piecesCT pos (flipColor stm) KING)
        else attackers0
      let attackers2 := if attackers1 &&& piecesCT pos (flipColor stm) KING ≠ 0 then
          attackers1 ||| (rookAtt toSq (occupied &&& bbNot (piecesT pos ROOK))
                          &&& piecesCT pos stm KING)
        else attackers1
      let nonCannons := attackers2 &&& bbNot (piecesT pos CANNON)
      let cannons := attackers2 &&& piecesT pos CANNON
      seeLoop pos toSq 90 stm attackers2 occupied nonCannons cannons true swap1

/-! ## Repetition and perpetuals (src/position.cpp lines 742-778) -/

/-- Modelled from the spec: `undo_move_board(b, m)` realigns a piece set
across undoing move `m`, relocating the bit on the destination square back to
the origin square. -/
def undo_move_board (b : Bitboard) (m : Move) : Bitboard :=
  if b.testBit (to_sq m) then (b ^^^ sqBB (to_sq m)) ||| sqBB (from_sq m) else b

/-- The scoring expression of `Position::is_repeated` on a repetition hit
(src/position.cpp:764-765). -/
def repResult (pThem pUs : Bool) (cThem cUs : Bitboard) (ply : Nat) : Int :=
  if pThem ∨ pUs then
    if ¬ pUs then VALUE_MATE - (ply : Int)
    else if ¬ pThem then -VALUE_MATE + (ply : Int) else VALUE_DRAW
  else if cThem ≠ 0 ∨ cUs ≠ 0 then
    if cUs = 0 then VALUE_MATE - (ply : Int)
    else if cThem = 0 then -VALUE_MATE + (ply : Int) else VALUE_DRAW
  else VALUE_DRAW

/-- The backward walk of `Position::is_repeated` (src/position.cpp:752-774).
`stack` is the `StateInfo` chain with the current state at index `0`; the
iteration counter `i` starts at `4` and the `stp` pointer of iteration `i` is
`stack[i]`.  The fuel bounds the iteration count (`pliesFromNull` suffices). -/
def repLoop (stack : List StateInfo) (stKey : Nat) (pfn ply : Nat) :
    Nat → Nat → Nat → Bool → Bool → Bitboard → Bitboard → Option Int
  | _, 0, _, _, _, _, _ => none
  | i, fuel + 1, cnt, pThem, pUs, cThem, cUs =>
    if i > pfn then none
    else
      let cThem1 := if i ≠ pfn then
          undo_move_board cThem (stack.getD (i - 1) default).move &&& (stack.getD i default).chasedBB
        else cThem
      let stp := stack.getD i default
      let pThem1 := pThem && stp.checkersBB ≠ 0
      if stp.key = stKey ∧ cnt + 1 = (if ply > i then 1 else 2) then
        some (repResult pThem1 pUs cThem1 cUs ply)
      else
        let cnt1 := if stp.key = stKey then cnt + 1 else cnt
        let pUs1 := if i + 1 ≤ pfn then pUs && (stack.getD (i + 1) default).checkersBB ≠ 0 else pUs
        let cUs1 := if i + 1 ≤ pfn then
            undo_move_board cUs stp.move &&& (stack.getD (i + 1) default).chasedBB
          else cUs
        repLoop stack stKey pfn ply (i + 2) fuel cnt1 pThem1 pUs1 cThem1 cUs1

/-- `Position::is_repeated(result, ply)` (src/position.cpp:742): `some r`
stands for `return true` with `result = r`, `none` for `return false`. -/
def is_repeated (pos : Position) (ply : Nat) : Option Int :=
  let st := stHead pos
  if st.pliesFromNull ≥ 4 then
    let s1 := pos.stack.getD 1 default
    let s2 := pos.stack.getD 2 default
    let s3 := pos.stack.getD 3 default
    let pThem := st.checkersBB ≠ 0 && s2.checkersBB ≠ 0
    let pUs := s1.checkersBB ≠ 0 && s3.checkersBB ≠ 0
    let cThem := undo_move_board st.chasedBB s1.move &&& s2.chasedBB
    let cUs := undo_move_board s1.chasedBB s2.move &&& s3.chasedBB
    repLoop pos.stack st.key st.pliesFromNull ply 4 st.pliesFromNull 0 pThem pUs cThem cUs
  else none

/-! ## FEN input and output (src/position.cpp lines 96-169 and 248-278) -/

/-- The source string `PieceToChar` (src/position.cpp:45). -/
def pieceToCharList : List Char := " RACPNBK racpnbk".data

/-- `PieceToChar.find(c)`: the index of the first occurrence, if any. -/
def pieceCharIdx (c : Char) : Option Nat := pieceToCharList.findIdx? (fun x => x = c)

/-- `PieceToChar[pc]`. -/
def pieceChar (pc : Piece) : Char := pieceToCharList.getD pc ' '

/-- `isspace` on the characters that can occur in a FEN stream. -/
def fenIsSpace (c : Char) : Bool := c = ' ' || c = '\t' || c = '\n' || c = '\r'

/-- `isdigit`. -/
def fenIsDigit (c : Char) : Bool := '0' ≤ c && c ≤ '9'

/-- The piece-placement loop of `Position::set` (src/position.cpp:133-145):
reads characters up to (and consuming) the first whitespace, advancing the
square cursor east on digits, two ranks south on `/` and placing pieces on
letters of `PieceToChar`; returns the position and the unconsumed stream. -/
def placeLoop : List Char → Int → Position → Position × List Char
  | [], _, pos => (pos, [])
  | c :: rest, sq, pos =>
    if fenIsSpace c then (pos, rest)
    else if fenIsDigit c then placeLoop rest (sq + ((c.toNat - '0'.toNat : Nat) : Int)) pos
    else if c = '/' then placeLoop rest (sq - 18) pos
    else match pieceCharIdx c with
      | some idx => placeLoop rest (sq + 1) (put_piece pos idx sq.toNat)
      | none => placeLoop rest sq pos

/-- `while ((ss >> token) && !isspace(token));` — skip a field, consuming its
terminating whitespace. -/
def skipTokenThroughSpace : List Char → List Char
  | [] => []
  | c :: rest => if fenIsSpace c then rest else skipTokenThroughSpace rest

/-- Parse a run of decimal digits (the successful part of `istream >> int`). -/
def parseDigits : List Char → Nat → Nat
  | [], acc => acc
  | c :: rest, acc =>
    if fenIsDigit c then parseDigits rest (acc * 10 + (c.toNat - '0'.toNat)) else acc

/-- `istream >> int` on an already whitespace-skipped stream: an optional
sign followed by digits; `0` when no digits are present. -/
def parseIntFrom (cs : List Char) : Int :=
  match cs with
  | '-' :: rest => -((parseDigits rest 0 : Nat) : Int)
  | _ => ((parseDigits cs 0 : Nat) : Int)

/-- `Position::set(fenStr, si, th)` (src/position.cpp:96): zeroes the
position, runs the placement loop from square `SQ_A9 = 81`, reads the side to
move, skips the two placeholder fields, consumes one character of the halfmove
field, parses the fullmove number into `gamePly`, converts it with
`max(2*(fullmove-1), 0) + (sideToMove == BLACK)`, and recomputes the state. -/
def set (fenStr : String) : Position :=
  let pr := placeLoop fenStr.data 81 {}
  let pos1 := pr.1
  let rest1 := pr.2
  let sideC := rest1.headD ' '
  let stm := if sideC = 'w' then WHITE else BLACK
  let rest3 := (rest1.drop 1).drop 1
  let rest4 := skipTokenThroughSpace rest3
  let rest5 := skipTokenThroughSpace rest4
  let rest7 := (rest5.dropWhile fenIsSpace).drop 1
  let rest8 := rest7.dropWhile fenIsSpace
  let g : Int := parseIntFrom rest8
  let gp : Nat := (max (2 * (g - 1)) 0).toNat + (if stm = BLACK then 1 else 0)
  set_state { pos1 with sideToMove := stm, gamePly := gp }

/-- The per-rank encoder of `Position::fen` (src/position.cpp:253-268): the
inner loop counting empty squares and run-length-encoding them. -/
def fenRankAux : List Piece → Nat → List Char
  | [], cnt => if cnt > 0 then (Nat.repr cnt).data else []
  | p :: tl, cnt =>
    if p = NO_PIECE then fenRankAux tl (cnt + 1)
    else (if cnt > 0 then (Nat.repr cnt).data else []) ++ pieceChar p :: fenRankAux tl 0

/-- The nine squares of rank `r`, low file first. -/
def rowOf (pos : Position) (r : Nat) : List Piece :=
  (List.range 9).map (fun f => piece_on pos (mkSq f r))

/-- The placement part of `Position::fen`: ranks from `9` down to `0`,
separated by `/`. -/
def fenRanks (pos : Position) : Nat → List Char
  | 0 => fenRankAux (rowOf pos 0) 0
  | r + 1 => fenRankAux (rowOf pos (r + 1)) 0 ++ '/' :: fenRanks pos r

/-- `Position::fen()` (src/position.cpp:248). -/
def fen (pos : Position) : String :=
  String.mk (fenRanks pos 9
    ++ (if pos.sideToMove = WHITE then " w " else " b ").data
    ++ ['-'] ++ " - ".data ++ (Nat.repr 0).data ++ [' ']
    ++ (Nat.repr (1 + (pos.gamePly - (if pos.sideToMove = BLACK then 1 else 0)) / 2)).data)

/-! # General lemmas -/

theorem xor_right_swap (a b c : Nat) : a ^^^ b ^^^ c = a ^^^ c ^^^ b := by
  rw [Nat.xor_assoc, Nat.xor_assoc, Nat.xor_comm b c]

theorem sqBB_testBit (s i : Nat) : (sqBB s).testBit i = decide (s = i) := by
  have h : sqBB s = 2 ^ s := by simp [sqBB, Nat.shiftLeft_eq]
  rw [h, Nat.testBit_two_pow]

theorem bb_eq_zero_iff (b : Bitboard) : b = 0 ↔ ∀ i, b.testBit i = false := by
  constructor
  · rintro rfl i; exact Nat.zero_testBit i
  · intro h; exact Nat.eq_of_testBit_eq fun i => by rw [h i, Nat.zero_testBit]

theorem land_sqBB_ne_zero (b : Bitboard) (s : Nat) :
    b &&& sqBB s ≠ 0 ↔ b.testBit s = true := by
  constructor
  · intro h
    cases hbs : b.testBit s with
    | true => rfl
    | false =>
      exact absurd ((bb_eq_zero_iff _).mpr (fun i => by
        rw [Nat.testBit_land, sqBB_testBit]
        by_cases hi : s = i
        · subst hi; simp [hbs]
        · simp [hi])) h
  · intro h hz
    have h2 := congrArg (fun x => Nat.testBit x s) hz
    simp only [Nat.testBit_land, sqBB_testBit, Nat.zero_testBit, decide_eq_true_eq] at h2
    rw [h] at h2
    simp at h2

theorem testBit_bbOf (l : List Nat) (i : Nat) :
    (bbOf l).testBit i = decide (i ∈ l) := by
  induction l with
  | nil => simp [bbOf, Nat.zero_testBit]
  | cons x xs ih =>
    simp only [bbOf, List.foldr_cons] at *
    rw [Nat.testBit_lor, ih, sqBB_testBit]
    by_cases hx : x = i <;> by_cases hm : i ∈ xs <;> simp [hx, hm, List.mem_cons]
    · exact fun h => hx h.symm

theorem bbNot_testBit (b : Bitboard) (i : Nat) :
    (bbNot b).testBit i = (decide (i < 128) && !(b.testBit i)) := by
  rw [bbNot, FULL128, Nat.testBit_xor, Nat.testBit_land, Nat.testBit_two_pow_sub_one]
  cases hb : b.testBit i <;> cases hi : decide (i < 128) <;> simp

theorem testBit_lt_two_pow {b i : Nat} (hb : b < 2 ^ i) : b.testBit i = false := by
  exact Nat.testBit_eq_false_of_lt (lt_of_lt_of_le hb (Nat.pow_le_pow_right (by norm_num) (le_refl i)))

theorem land_sqBB_eq_zero (b : Bitboard) (s : Nat) :
    b &&& sqBB s = 0 ↔ b.testBit s = false := by
  rw [← Bool.not_eq_true, ← land_sqBB_ne_zero, not_not]

/-! # Claim C7: total characterization of `pseudo_legal` -/

/-- The characterization of `pseudo_legal` used by several claims. -/
theorem pseudo_legal_iff (pos : Position) (m : Move) :
    pseudo_legal pos m = true ↔
      (moved_piece pos m ≠ NO_PIECE ∧
       color_of (moved_piece pos m) = pos.sideToMove ∧
       (piecesC pos pos.sideToMove).testBit (to_sq m) = false ∧
       (if type_of (moved_piece pos m) = PAWN then
          (pawnAtt pos.sideToMove (from_sq m)).testBit (to_sq m) = true
        else if type_of (moved_piece pos m) = CANNON ∧ ¬ capture pos m then
          (rookAtt (from_sq m) (piecesAll pos)).testBit (to_sq m) = true
        else
          (attacks_bb (type_of (moved_piece pos m)) (from_sq m) (piecesAll pos)).testBit
            (to_sq m) = true)) := by
  simp only [pseudo_legal]
  by_cases h1 : moved_piece pos m = NO_PIECE ∨ color_of (moved_piece pos m) ≠ pos.sideToMove
  · rw [if_pos h1]
    simp only [Bool.false_eq_true, false_iff]
    rintro ⟨hne, hcol, -⟩
    rcases h1 with h | h
    exacts [hne h, h hcol]
  · rw [if_neg h1]
    push_neg at h1
    by_cases h2 : piecesC pos pos.sideToMove &&& sqBB (to_sq m) ≠ 0
    · rw [if_pos h2]
      rw [land_sqBB_ne_zero] at h2
      simp only [Bool.false_eq_true, false_iff]
      rintro ⟨-, -, hfree, -⟩
      rw [h2] at hfree
      cases hfree
    · rw [if_neg h2]
      rw [not_not, land_sqBB_eq_zero] at h2
      by_cases h3 : type_of (moved_piece pos m) = PAWN
      · rw [if_pos h3, if_pos h3]
        simp [h1.1, h1.2, h2, land_sqBB_ne_zero]
      · rw [if_neg h3, if_neg h3]
        by_cases h4 : type_of (moved_piece pos m) = CANNON ∧ ¬ capture pos m
        · rw [if_pos h4, if_pos h4]
          simp [h1.1, h1.2, h2, land_sqBB_ne_zero]
        · rw [if_neg h4, if_neg h4]
          simp [h1.1, h1.2, h2, land_sqBB_ne_zero]

/-- **C7.** For every move value `m` — the embedding is total, so arbitrary or
corrupted inputs are covered and the function can only return `false`, never
fail — `pseudo_legal(m)` returns `true` iff the from-square holds a piece of
the side to move, the destination is not occupied by a friendly piece, and the
mover's geometry permits the step: a pawn via `pawn_attacks_bb`, a cannon
non-capture via rook attacks over the current occupancy, and every other case
via `to ∈ attacks_bb(kind, from, occupancy)`. -/
theorem c7_pseudo_legal_characterization (pos : Position) (m : Move) :
    pseudo_legal pos m = true ↔
      (moved_piece pos m ≠ NO_PIECE ∧
       color_of (moved_piece pos m) = pos.sideToMove ∧
       (piecesC pos pos.sideToMove).testBit (to_sq m) = false ∧
       (if type_of (moved_piece pos m) = PAWN then
          (pawnAtt pos.sideToMove (from_sq m)).testBit (to_sq m) = true
        else if type_of (moved_piece pos m) = CANNON ∧ ¬ capture pos m then
          (rookAtt (from_sq m) (piecesAll pos)).testBit (to_sq m) = true
        else
          (attacks_bb (type_of (moved_piece pos m)) (from_sq m) (piecesAll pos)).testBit
            (to_sq m) = true)) :=
  pseudo_legal_iff pos m

/-! # Claim C5: `key_after` refines `do_move`'s key -/

/-- **C5.** For every move `m`, `key_after(m)` computes exactly the Zobrist
key that `do_move(m, newSt, givesCheck)` subsequently stores in `st->key` for
the resulting position; in this embedding `key_after` is a pure function of
the position and its state stack, so it modifies neither. -/
theorem c5_key_after_matches_do_move (pos : Position) (m : Move) (givesCheck : Bool) :
    key_after pos m = (stHead (do_move pos m givesCheck)).key := by
  by_cases hc : piece_on pos (to_sq m) = NO_PIECE <;>
    simp [key_after, do_move, set_check_info, setHead, stHead, hc, xor_right_swap]

/-! # Claim C2: characterization of `legal`

The claim states the king-safety conditions in terms of attacks "by any enemy
piece", while the code tests only pawn/knight/rook/cannon attackers
(`checkers_to`).  The two agree on positions where advisors and the king stay
inside their own palace and elephants on their own half (which every reachable
Xiangqi position satisfies); the geometry facts below supply that bridge. -/

/-- The half of the palace belonging to color `c`. -/
def palaceSideBB (c : Color) : Bitboard :=
  bbOf ((List.range 90).filter (fun s =>
    inPalace s && (if c = WHITE then rankOf s ≤ 2 else 7 ≤ rankOf s)))

set_option maxRecDepth 8000

theorem palaceSideBB_lt : ∀ c < 2, palaceSideBB c < 2 ^ 90 := by decide

theorem advisorAtt_confined : ∀ c < 2, ∀ t < 90, (palaceSideBB c).testBit t = true →
    advisorAtt t &&& palaceSideBB c = advisorAtt t := by decide

theorem kingAtt_confined : ∀ c < 2, ∀ t < 90, (palaceSideBB c).testBit t = true →
    kingAtt t &&& palaceSideBB c = kingAtt t := by decide

theorem bishopAtt_confined : ∀ c < 2, ∀ t < 90, (palaceSideBB c).testBit t = true →
    bishopAtt t 0 &&& HalfBB c = bishopAtt t 0 := by decide

theorem testBit_false_of_lt_90 {b : Nat} (hb : b < 2 ^ 90) {i : Nat} (hi : 90 ≤ i) :
    b.testBit i = false :=
  Nat.testBit_eq_false_of_lt (lt_of_lt_of_le hb (Nat.pow_le_pow_right (by norm_num) hi))

theorem land_testBit_false {a b : Nat} (h : a &&& b = 0) (i : Nat) :
    (a.testBit i && b.testBit i) = false := by
  have h2 := congrArg (fun x => Nat.testBit x i) h
  simpa [Nat.testBit_land, Nat.zero_testBit] using h2

theorem subset_of_land_eq {a b : Nat} (h : a &&& b = a) {i : Nat}
    (hi : a.testBit i = true) : b.testBit i = true := by
  have h2 : (a &&& b).testBit i = a.testBit i := by rw [h]
  rw [Nat.testBit_land, hi, Bool.true_and] at h2
  exact h2

/-- Occupancy only removes elephant attacks: any blocked-midpoint attack is
also an empty-board attack. -/
theorem bishopAtt_mono (s : Nat) (occ : Bitboard) (i : Nat)
    (h : (bishopAtt s occ).testBit i = true) : (bishopAtt s 0).testBit i = true := by
  rw [bishopAtt, testBit_bbOf] at h
  rw [bishopAtt, testBit_bbOf]
  simp only [decide_eq_true_eq, List.mem_filterMap] at h ⊢
  obtain ⟨d, hd, hf⟩ := h
  refine ⟨d, hd, ?_⟩
  cases hm : shiftSq s (d.1 / 2) (d.2 / 2) <;> cases ht : shiftSq s d.1 d.2 <;>
    rw [hm, ht] at hf <;> simp_all [Nat.zero_testBit]
  obtain ⟨-, h2, rfl⟩ := hf
  exact h2

/-- The per-bit boolean shape of `attackers_to ∩ black = checkers_to black`. -/
theorem attacker_bits (a1 p2 c1 k4 x1 x2 x3 db da dk : Bool)
    (ha1 : (a1 && c1) = false) (hdb : (db && c1) = false)
    (hda : (da && c1) = false) (hdk : (dk && c1) = false) :
    ((((((((a1 || (p2 && (c1 && k4))) || x1) || x2) || x3) || db) || da) || dk) && c1)
      = (((((p2 && k4) || x1) || x2) || x3) && c1) := by
  cases c1
  · simp
  · simp_all

/-- The per-bit boolean shape of `attackers_to ∩ white = checkers_to white`. -/
theorem attacker_bits_b (p1 c0 k4 a2 x1 x2 x3 db da dk : Bool)
    (ha2 : (a2 && c0) = false) (hdb : (db && c0) = false)
    (hda : (da && c0) = false) (hdk : (dk && c0) = false) :
    (((((((((p1 && (c0 && k4)) || a2) || x1) || x2) || x3) || db) || da) || dk) && c0)
      = (((((p1 && k4) || x1) || x2) || x3) && c0) := by
  cases c0
  · simp
  · simp_all

/-- A white-pawn attacker bit cannot also be black. -/
theorem a1_false (pW c0 k4 c1 : Bool) (hd : (c0 && c1) = false) :
    ((pW && (c0 && k4)) && c1) = false := by
  cases c0 <;> cases c1 <;> simp_all

/-- A black-pawn attacker bit cannot also be white. -/
theorem a2_false (pB c1 k4 c0 : Bool) (hd : (c0 && c1) = false) :
    ((pB && (c1 && k4)) && c0) = false := by
  cases c0 <;> cases c1 <;> simp_all

/-- A confined attacker (advisor, elephant, king step) of the enemy color
contributes nothing: its attack bit forces the palace/half bit, which the
confinement hypothesis excludes. -/
theorem dead_bool (x kx c1 pal : Bool) (h : ((c1 && kx) && pal) = false)
    (hs : x = true → pal = true) : ((x && kx) && c1) = false := by
  cases x <;> simp_all [Bool.and_comm]

/-- On a target square inside the side-to-move's palace half, the full attack
aggregate restricted to enemy pieces coincides with `checkers_to`: enemy
advisors, elephants and the enemy king (apart from the separately-tested
flying-general line) can never reach there. -/
theorem attackers_restrict (pos : Position) (target : Nat) (occ : Bitboard) (us : Color)
    (hus : us ≤ 1)
    (ht : (palaceSideBB us).testBit target = true)
    (hadv : piecesCT pos (flipColor us) ADVISOR &&& palaceSideBB us = 0)
    (hbis : piecesCT pos (flipColor us) BISHOP &&& HalfBB us = 0)
    (hking : piecesCT pos (flipColor us) KING &&& palaceSideBB us = 0)
    (hdisj : piecesC pos WHITE &&& piecesC pos BLACK = 0) :
    attackers_to pos target occ &&& piecesC pos (flipColor us) =
      checkers_to pos (flipColor us) target occ := by
  have hus2 : us < 2 := Nat.lt_succ_of_le hus
  have ht90 : target < 90 := by
    by_contra hcon
    push_neg at hcon
    rw [testBit_false_of_lt_90 (palaceSideBB_lt us hus2) hcon] at ht
    cases ht
  have hA : ∀ i, (advisorAtt target).testBit i = true → (palaceSideBB us).testBit i = true :=
    fun i hi => subset_of_land_eq (advisorAtt_confined us hus2 target ht90 ht) hi
  have hK : ∀ i, (kingAtt target).testBit i = true → (palaceSideBB us).testBit i = true :=
    fun i hi => subset_of_land_eq (kingAtt_confined us hus2 target ht90 ht) hi
  have hB : ∀ i, (bishopAtt target occ).testBit i = true → (HalfBB us).testBit i = true :=
    fun i hi => subset_of_land_eq (bishopAtt_confined us hus2 target ht90 ht)
      (bishopAtt_mono target occ i hi)
  have hus01 : us = 0 ∨ us = 1 := Nat.le_one_iff_eq_zero_or_eq_one.mp hus
  apply Nat.eq_of_testBit_eq
  intro i
  have hdisj_i := land_testBit_false hdisj i
  have hadv_i := land_testBit_false hadv i
  have hbis_i := land_testBit_false hbis i
  have hking_i := land_testBit_false hking i
  rcases hus01 with rfl | rfl
  · simp only [attackers_to, checkers_to, piecesCT, piecesC, piecesT, flipColor,
      Nat.testBit_land, WHITE, BLACK, Nat.sub_zero] at hadv_i hbis_i hking_i hdisj_i
    simp only [attackers_to, checkers_to, piecesCT, piecesC, piecesT, flipColor,
      Nat.testBit_land, Nat.testBit_lor, WHITE, BLACK, Nat.sub_zero]
    exact attacker_bits _ _ _ _ _ _ _ _ _ _
      (a1_false _ _ _ _ hdisj_i)
      (dead_bool _ _ _ _ hbis_i (hB i))
      (dead_bool _ _ _ _ hadv_i (hA i))
      (dead_bool _ _ _ _ hking_i (hK i))
  · simp only [attackers_to, checkers_to, piecesCT, piecesC, piecesT, flipColor,
      Nat.testBit_land, WHITE, BLACK, Nat.sub_self] at hadv_i hbis_i hking_i hdisj_i
    simp only [attackers_to, checkers_to, piecesCT, piecesC, piecesT, flipColor,
      Nat.testBit_land, Nat.testBit_lor, WHITE, BLACK, Nat.sub_self]
    exact attacker_bits_b _ _ _ _ _ _ _ _ _ _
      (a2_false _ _ _ _ hdisj_i)
      (dead_bool _ _ _ _ hbis_i (hB i))
      (dead_bool _ _ _ _ hadv_i (hA i))
      (dead_bool _ _ _ _ hking_i (hK i))

theorem attacks_bb_king (s : Nat) (occ : Bitboard) : attacks_bb KING s occ = kingAtt s := rfl

/-- **C2.** For every pseudo-legal move `m` of the side to move, on a position
whose kings, advisors and elephants respect their palace/half confinement (true
of every reachable Xiangqi position, and stated as the decidable hypotheses
below), `legal(m)` returns `true` iff, on the post-move occupancy
`(pieces ^ from) | to`: (a) there is no clear rook-line between the two kings,
the post-move king square being `to` when the mover is the king; (b) if the
mover is the king, `to` is not attacked by any enemy piece; and (c) if the
mover is not the king, the side-to-move's king is not attacked, ignoring any
enemy attacker standing on `to`. -/
theorem c2_legal_characterization (pos : Position) (m : Move)
    (hus : pos.sideToMove ≤ 1)
    (hpl : pseudo_legal pos m = true)
    (hksq : (palaceSideBB pos.sideToMove).testBit (kingSq pos pos.sideToMove) = true)
    (hkfrom : type_of (moved_piece pos m) = KING →
      (palaceSideBB pos.sideToMove).testBit (from_sq m) = true)
    (hadv : piecesCT pos (flipColor pos.sideToMove) ADVISOR &&& palaceSideBB pos.sideToMove = 0)
    (hbis : piecesCT pos (flipColor pos.sideToMove) BISHOP &&& HalfBB pos.sideToMove = 0)
    (hkg : piecesCT pos (flipColor pos.sideToMove) KING &&& palaceSideBB pos.sideToMove = 0)
    (hdisj : piecesC pos WHITE &&& piecesC pos BLACK = 0) :
    legal pos m = true ↔
      (rookAtt (if type_of (moved_piece pos m) = KING then to_sq m else kingSq pos pos.sideToMove)
          ((piecesAll pos ^^^ sqBB (from_sq m)) ||| sqBB (to_sq m))
        &&& piecesCT pos (flipColor pos.sideToMove) KING = 0 ∧
       (type_of (moved_piece pos m) = KING →
         attackers_to pos (to_sq m) ((piecesAll pos ^^^ sqBB (from_sq m)) ||| sqBB (to_sq m))
           &&& piecesC pos (flipColor pos.sideToMove) = 0) ∧
       (type_of (moved_piece pos m) ≠ KING →
         attackers_to pos (kingSq pos pos.sideToMove)
             ((piecesAll pos ^^^ sqBB (from_sq m)) ||| sqBB (to_sq m))
           &&& piecesC pos (flipColor pos.sideToMove) &&& bbNot (sqBB (to_sq m)) = 0)) := by
  have hus2 : pos.sideToMove < 2 := Nat.lt_succ_of_le hus
  have h90 : ∀ {t : Nat}, (palaceSideBB pos.sideToMove).testBit t = true → t < 90 := by
    intro t ht
    by_contra hcon
    push_neg at hcon
    rw [testBit_false_of_lt_90 (palaceSideBB_lt _ hus2) hcon] at ht
    cases ht
  have hto : type_of (piece_on pos (from_sq m)) = KING →
      (palaceSideBB pos.sideToMove).testBit (to_sq m) = true := by
    intro hk
    have hg := ((pseudo_legal_iff pos m).mp hpl).2.2.2
    rw [if_neg (by simp [moved_piece, hk, KING, PAWN]),
        if_neg (by simp [moved_piece, hk, KING, CANNON])] at hg
    rw [show moved_piece pos m = piece_on pos (from_sq m) from rfl, hk, attacks_bb_king] at hg
    have hfrom : (palaceSideBB pos.sideToMove).testBit (from_sq m) = true := hkfrom hk
    exact subset_of_land_eq (kingAtt_confined _ hus2 (from_sq m) (h90 hfrom) hfrom) hg
  have hcheq : ∀ target, (palaceSideBB pos.sideToMove).testBit target = true →
      checkers_to pos (flipColor pos.sideToMove) target
        ((piecesAll pos ^^^ sqBB (from_sq m)) ||| sqBB (to_sq m)) =
      attackers_to pos target ((piecesAll pos ^^^ sqBB (from_sq m)) ||| sqBB (to_sq m))
        &&& piecesC pos (flipColor pos.sideToMove) :=
    fun target ht => (attackers_restrict pos target _ pos.sideToMove hus ht hadv hbis hkg hdisj).symm
  simp only [legal, moved_piece]
  by_cases hk : type_of (piece_on pos (from_sq m)) = KING
  · by_cases hf : rookAtt (to_sq m) ((piecesAll pos ^^^ sqBB (from_sq m)) ||| sqBB (to_sq m))
        &&& piecesCT pos (flipColor pos.sideToMove) KING = 0
    · simp [hk, hf, hcheq (to_sq m) (hto hk)]
    · simp [hk, hf, hcheq (to_sq m) (hto hk)]
  · by_cases hf : rookAtt (kingSq pos pos.sideToMove)
        ((piecesAll pos ^^^ sqBB (from_sq m)) ||| sqBB (to_sq m))
        &&& piecesCT pos (flipColor pos.sideToMove) KING = 0
    · simp [hk, hf, hcheq (kingSq pos pos.sideToMove) hksq]
    · simp [hk, hf, hcheq (kingSq pos pos.sideToMove) hksq]

/-- A small concrete position used by several witnesses: White king d0, rook
a0; Black king e9, rook i9, pawn e4; White to move. -/
def testPosA : Position :=
  [(make_piece WHITE KING, 3), (make_piece BLACK KING, 85), (make_piece WHITE ROOK, 0),
   (make_piece BLACK ROOK, 89), (make_piece BLACK PAWN, 40)].foldl
    (fun p x => put_piece p x.1 x.2) {}

/-! # Claim C1: `undo_move` inverts `do_move` -/

theorem getD_set_self (l : List Nat) (i : Nat) (a d : Nat) (h : i < l.length) :
    (l.set i a).getD i d = a := by
  rw [List.getD_eq_getElem _ _ (by simpa using h)]
  exact List.getElem_set_self (by simpa using h)

theorem getD_set_ne (l : List Nat) (i j : Nat) (a d : Nat) (h : i ≠ j) :
    (l.set i a).getD j d = l.getD j d := by
  by_cases hj : j < l.length
  · rw [List.getD_eq_getElem _ _ (by simpa using hj), List.getD_eq_getElem _ _ hj]
    exact List.getElem_set_of_ne h a (by simpa using hj)
  · rw [List.getD_eq_default _ _ (by simpa using hj), List.getD_eq_default _ _ (by omega)]

theorem list_eq_of_getD (l1 l2 : List Nat) (hlen : l1.length = l2.length)
    (h : ∀ j, l1.getD j 0 = l2.getD j 0) : l1 = l2 := by
  apply List.ext_getElem hlen
  intro j h1 h2
  have hh := h j
  rwa [List.getD_eq_getElem _ _ h1, List.getD_eq_getElem _ _ h2] at hh

theorem set_getD_self (l : List Nat) (i : Nat) (h : i < l.length) :
    l.set i (l.getD i 0) = l := by
  apply list_eq_of_getD _ _ (by simp)
  intro j
  by_cases hj : i = j
  · subst hj; exact getD_set_self l i _ 0 h
  · exact getD_set_ne l i j _ 0 hj

theorem xor_lor_cancel (x a b : Nat) : x ^^^ (a ||| b) ^^^ (b ||| a) = x := by
  rw [Nat.lor_comm b a, Nat.xor_assoc, Nat.xor_self, Nat.xor_zero]

theorem xor_or_restore {x s : Nat} (h : x.testBit s = true) :
    (x ^^^ sqBB s) ||| sqBB s = x := by
  apply Nat.eq_of_testBit_eq
  intro i
  rw [Nat.testBit_lor, Nat.testBit_xor, sqBB_testBit]
  by_cases hs : s = i
  · subst hs; simp [h]
  · simp [hs]

theorem flipColor_flipColor {c : Color} (h : c ≤ 1) : flipColor (flipColor c) = c := by
  rcases Nat.le_one_iff_eq_zero_or_eq_one.mp h with rfl | rfl <;> rfl

theorem type_of_lt8 (pc : Piece) : type_of pc < 8 := Nat.mod_lt pc (by norm_num)

theorem color_of_lt2 {pc : Nat} (h : pc < 16) : color_of pc < 2 := by
  have h2 : pc / 8 < 2 := by omega
  exact h2

/-! Projection facts used to compute `do_move`/`undo_move` one field at a
time (all definitional). -/

theorem scc_board (p : Position) : (set_check_info p).board = p.board := rfl

theorem scc_byKind (p : Position) : (set_check_info p).byKind = p.byKind := rfl

theorem scc_byColor (p : Position) : (set_check_info p).byColor = p.byColor := rfl

theorem scc_pieceCount (p : Position) : (set_check_info p).pieceCount = p.pieceCount := rfl

theorem scc_sideToMove (p : Position) : (set_check_info p).sideToMove = p.sideToMove := rfl

theorem scc_gamePly (p : Position) : (set_check_info p).gamePly = p.gamePly := rfl

theorem scc_stack_tail (p : Position) : (set_check_info p).stack.tail = p.stack.tail := rfl

theorem scc_capturedPiece (p : Position) :
    (stHead (set_check_info p)).capturedPiece = (stHead p).capturedPiece := rfl

theorem move_piece_board (pos : Position) (f t : Nat) :
    (move_piece pos f t).board = (pos.board.set f NO_PIECE).set t (piece_on pos f) := rfl

theorem move_piece_byKind (pos : Position) (f t : Nat) :
    (move_piece pos f t).byKind = pos.byKind.set (type_of (piece_on pos f))
      (pos.byKind.getD (type_of (piece_on pos f)) 0 ^^^ (sqBB f ||| sqBB t)) := rfl

theorem move_piece_byColor (pos : Position) (f t : Nat) :
    (move_piece pos f t).byColor = pos.byColor.set (color_of (piece_on pos f))
      (pos.byColor.getD (color_of (piece_on pos f)) 0 ^^^ (sqBB f ||| sqBB t)) := rfl

theorem move_piece_pieceCount (pos : Position) (f t : Nat) :
    (move_piece pos f t).pieceCount = pos.pieceCount := rfl

theorem remove_piece_board (pos : Position) (s : Nat) :
    (remove_piece pos s).board = pos.board.set s NO_PIECE := rfl

theorem remove_piece_byKind (pos : Position) (s : Nat) :
    (remove_piece pos s).byKind = pos.byKind.set (type_of (piece_on pos s))
      (pos.byKind.getD (type_of (piece_on pos s)) 0 ^^^ sqBB s) := rfl

theorem remove_piece_byColor (pos : Position) (s : Nat) :
    (remove_piece pos s).byColor = pos.byColor.set (color_of (piece_on pos s))
      (pos.byColor.getD (color_of (piece_on pos s)) 0 ^^^ sqBB s) := rfl

theorem remove_piece_pieceCount (pos : Position) (s : Nat) :
    (remove_piece pos s).pieceCount
      = pos.pieceCount.set (piece_on pos s) (pos.pieceCount.getD (piece_on pos s) 0 - 1) := rfl

theorem put_piece_board (pos : Position) (pc s : Nat) :
    (put_piece pos pc s).board = pos.board.set s pc := rfl

theorem put_piece_byKind (pos : Position) (pc s : Nat) :
    (put_piece pos pc s).byKind = pos.byKind.set (type_of pc)
      (pos.byKind.getD (type_of pc) 0 ||| sqBB s) := rfl

theorem put_piece_byColor (pos : Position) (pc s : Nat) :
    (put_piece pos pc s).byColor = pos.byColor.set (color_of pc)
      (pos.byColor.getD (color_of pc) 0 ||| sqBB s) := rfl

theorem put_piece_pieceCount (pos : Position) (pc s : Nat) :
    (put_piece pos pc s).pieceCount
      = pos.pieceCount.set pc (pos.pieceCount.getD pc 0 + 1) := rfl

theorem piece_on_remove_ne (pos : Position) {s f : Nat} (h : s ≠ f) :
    piece_on (remove_piece pos s) f = piece_on pos f := by
  rw [piece_on, remove_piece_board, piece_on]
  exact getD_set_ne _ _ _ _ _ h

/-- The fields of `do_move` in closed form. -/
theorem do_move_fields (pos : Position) (m : Move) (givesCheck : Bool) :
    (do_move pos m givesCheck).board
      = (((if piece_on pos (to_sq m) ≠ NO_PIECE then remove_piece pos (to_sq m)
          else pos).board.set (from_sq m) NO_PIECE).set (to_sq m)
          (piece_on (if piece_on pos (to_sq m) ≠ NO_PIECE then remove_piece pos (to_sq m)
            else pos) (from_sq m))) ∧
    (do_move pos m givesCheck).byKind
      = (move_piece (if piece_on pos (to_sq m) ≠ NO_PIECE then remove_piece pos (to_sq m)
          else pos) (from_sq m) (to_sq m)).byKind ∧
    (do_move pos m givesCheck).byColor
      = (move_piece (if piece_on pos (to_sq m) ≠ NO_PIECE then remove_piece pos (to_sq m)
          else pos) (from_sq m) (to_sq m)).byColor ∧
    (do_move pos m givesCheck).pieceCount
      = (if piece_on pos (to_sq m) ≠ NO_PIECE then remove_piece pos (to_sq m)
          else pos).pieceCount ∧
    (do_move pos m givesCheck).sideToMove = flipColor pos.sideToMove ∧
    (do_move pos m givesCheck).gamePly = pos.gamePly + 1 ∧
    (do_move pos m givesCheck).stack.tail = pos.stack ∧
    (stHead (do_move pos m givesCheck)).capturedPiece = piece_on pos (to_sq m) := by
  refine ⟨rfl, rfl, rfl, rfl, rfl, rfl, rfl, rfl⟩

/-- The fields of `undo_move` in closed form. -/
theorem undo_move_fields (pos : Position) (m : Move) :
    (undo_move pos m).board
      = (if (stHead pos).capturedPiece ≠ NO_PIECE then
          ((pos.board.set (to_sq m) NO_PIECE).set (from_sq m) (piece_on pos (to_sq m))).set
            (to_sq m) (stHead pos).capturedPiece
         else (pos.board.set (to_sq m) NO_PIECE).set (from_sq m) (piece_on pos (to_sq m))) ∧
    (undo_move pos m).byKind
      = (if (stHead pos).capturedPiece ≠ NO_PIECE then
          (pos.byKind.set (type_of (piece_on pos (to_sq m)))
            (pos.byKind.getD (type_of (piece_on pos (to_sq m))) 0
              ^^^ (sqBB (to_sq m) ||| sqBB (from_sq m)))).set
            (type_of (stHead pos).capturedPiece)
            ((pos.byKind.set (type_of (piece_on pos (to_sq m)))
              (pos.byKind.getD (type_of (piece_on pos (to_sq m))) 0
                ^^^ (sqBB (to_sq m) ||| sqBB (from_sq m)))).getD
              (type_of (stHead pos).capturedPiece) 0 ||| sqBB (to_sq m))
         else pos.byKind.set (type_of (piece_on pos (to_sq m)))
            (pos.byKind.getD (type_of (piece_on pos (to_sq m))) 0
              ^^^ (sqBB (to_sq m) ||| sqBB (from_sq m)))) ∧
    (undo_move pos m).byColor
      = (if (stHead pos).capturedPiece ≠ NO_PIECE then
          (pos.byColor.set (color_of (piece_on pos (to_sq m)))
            (pos.byColor.getD (color_of (piece_on pos (to_sq m))) 0
              ^^^ (sqBB (to_sq m) ||| sqBB (from_sq m)))).set
            (color_of (stHead pos).capturedPiece)
            ((pos.byColor.set (color_of (piece_on pos (to_sq m)))
              (pos.byColor.getD (color_of (piece_on pos (to_sq m))) 0
                ^^^ (sqBB (to_sq m) ||| sqBB (from_sq m)))).getD
              (color_of (stHead pos).capturedPiece) 0 ||| sqBB (to_sq m))
         else pos.byColor.set (color_of (piece_on pos (to_sq m)))
            (pos.byColor.getD (color_of (piece_on pos (to_sq m))) 0
              ^^^ (sqBB (to_sq m) ||| sqBB (from_sq m)))) ∧
    (undo_move pos m).pieceCount
      = (if (stHead pos).capturedPiece ≠ NO_PIECE then
          pos.pieceCount.set (stHead pos).capturedPiece
            (pos.pieceCount.getD (stHead pos).capturedPiece 0 + 1)
         else pos.pieceCount) ∧
    (undo_move pos m).sideToMove = flipColor pos.sideToMove ∧
    (undo_move pos m).gamePly = pos.gamePly - 1 ∧
    (undo_move pos m).stack = pos.stack.tail := by
  by_cases hcp : (stHead pos).capturedPiece ≠ NO_PIECE <;>
    refine ⟨?_, ?_, ?_, ?_, ?_, ?_, ?_⟩ <;>
    simp only [undo_move, if_pos hcp, if_neg hcp, move_piece_board, move_piece_byKind,
      move_piece_byColor, move_piece_pieceCount, put_piece_board, put_piece_byKind,
      put_piece_byColor, put_piece_pieceCount] <;> rfl

/-- **C1.** For every move `m` whose shape a legal move has (distinct on-board
squares, a real mover, and a board that agrees with the bitboard and count
views at the captured square), executing `do_move(m, newSt, givesCheck)` and
then `undo_move(m)` restores `board`, `byKind`, `byColor`, `pieceCount`,
`sideToMove`, `gamePly` and the `StateInfo` head pointer `st` (the stack, in
this embedding) to equality with their values before `do_move`; only the new
state existed in between, and `undo_move` reads only the current `StateInfo`
(by its definition it touches nothing below the head it pops). -/
theorem c1_do_undo_roundtrip (pos : Position) (m : Move) (givesCheck : Bool)
    (hb : pos.board.length = 90)
    (hk8 : pos.byKind.length = 8)
    (hc2 : pos.byColor.length = 2)
    (hn16 : pos.pieceCount.length = 16)
    (hstm : pos.sideToMove ≤ 1)
    (hft : from_sq m ≠ to_sq m)
    (hf90 : from_sq m < 90)
    (ht90 : to_sq m < 90)
    (hpc16 : piece_on pos (from_sq m) < 16)
    (hcap : piece_on pos (to_sq m) ≠ NO_PIECE →
      piece_on pos (to_sq m) < 16 ∧
      (pos.byColor.getD (color_of (piece_on pos (to_sq m))) 0).testBit (to_sq m) = true ∧
      (pos.byKind.getD (type_of (piece_on pos (to_sq m))) 0).testBit (to_sq m) = true ∧
      1 ≤ pos.pieceCount.getD (piece_on pos (to_sq m)) 0) :
    (undo_move (do_move pos m givesCheck) m).board = pos.board ∧
    (undo_move (do_move pos m givesCheck) m).byKind = pos.byKind ∧
    (undo_move (do_move pos m givesCheck) m).byColor = pos.byColor ∧
    (undo_move (do_move pos m givesCheck) m).pieceCount = pos.pieceCount ∧
    (undo_move (do_move pos m givesCheck) m).sideToMove = pos.sideToMove ∧
    (undo_move (do_move pos m givesCheck) m).gamePly = pos.gamePly ∧
    (undo_move (do_move pos m givesCheck) m).stack = pos.stack := by
  have hkm8 : type_of (piece_on pos (from_sq m)) < 8 := type_of_lt8 _
  have hcm2 : color_of (piece_on pos (from_sq m)) < 2 := color_of_lt2 hpc16
  obtain ⟨hDb, hDk, hDc, hDn, hDs, hDg, hDt, hDcap⟩ := do_move_fields pos m givesCheck
  obtain ⟨hUb, hUk, hUc, hUn, hUs, hUg, hUt⟩ := undo_move_fields (do_move pos m givesCheck) m
  by_cases hc : piece_on pos (to_sq m) = NO_PIECE
  · -- quiet move
    rw [if_neg (by simp [hc])] at hDb hDk hDc hDn
    rw [hDcap, if_neg (by simp [hc])] at hUb hUk hUc hUn
    have hpcU : piece_on (do_move pos m givesCheck) (to_sq m) = piece_on pos (from_sq m) := by
      rw [piece_on, hDb, piece_on]
      exact getD_set_self _ _ _ _ (by simp [hb, ht90])
    rw [move_piece_byKind] at hDk
    rw [move_piece_byColor] at hDc
    refine ⟨?_, ?_, ?_, ?_, ?_, ?_, ?_⟩
    · rw [hUb, hpcU, hDb]
      apply list_eq_of_getD _ _ (by simp [hb])
      intro j
      by_cases hjf : from_sq m = j
      · subst hjf
        rw [getD_set_self _ _ _ _ (by simp [hb, hf90])]
        rfl
      · rw [getD_set_ne _ _ _ _ _ hjf]
        by_cases hjt : to_sq m = j
        · subst hjt
          rw [getD_set_self _ _ _ _ (by simp [hb, ht90])]
          exact hc.symm
        · rw [getD_set_ne _ _ _ _ _ hjt, getD_set_ne _ _ _ _ _ hjt,
              getD_set_ne _ _ _ _ _ hjf]
    · rw [hUk, hpcU, hDk, List.set_set,
          getD_set_self _ _ _ _ (by simp [hk8, hkm8]),
          xor_lor_cancel, set_getD_self _ _ (by simp [hk8, hkm8])]
    · rw [hUc, hpcU, hDc, List.set_set,
          getD_set_self _ _ _ _ (by simp [hc2, hcm2]),
          xor_lor_cancel, set_getD_self _ _ (by simp [hc2, hcm2])]
    · rw [hUn, hDn]
    · rw [hUs, hDs]
      exact flipColor_flipColor hstm
    · rw [hUg, hDg]
      omega
    · rw [hUt, hDt]
  · -- capture
    obtain ⟨hcap16, hcbC, hcbK, hcnt⟩ := hcap hc
    rw [if_pos hc] at hDb hDk hDc hDn
    rw [hDcap, if_pos hc] at hUb hUk hUc hUn
    have hmov : piece_on (remove_piece pos (to_sq m)) (from_sq m) = piece_on pos (from_sq m) :=
      piece_on_remove_ne pos (Ne.symm hft)
    rw [remove_piece_board] at hDb
    rw [move_piece_byKind, hmov, remove_piece_byKind] at hDk
    rw [move_piece_byColor, hmov, remove_piece_byColor] at hDc
    rw [remove_piece_pieceCount] at hDn
    rw [hmov] at hDb
    have hpcU : piece_on (do_move pos m givesCheck) (to_sq m) = piece_on pos (from_sq m) := by
      rw [piece_on, hDb, piece_on]
      exact getD_set_self _ _ _ _ (by simp [hb, ht90])
    refine ⟨?_, ?_, ?_, ?_, ?_, ?_, ?_⟩
    · rw [hUb, hpcU, hDb]
      apply list_eq_of_getD _ _ (by simp [hb])
      intro j
      by_cases hjt : to_sq m = j
      · subst hjt
        rw [getD_set_self _ _ _ _ (by simp [hb, ht90])]
        rfl
      · rw [getD_set_ne _ _ _ _ _ hjt]
        by_cases hjf : from_sq m = j
        · subst hjf
          rw [getD_set_self _ _ _ _ (by simp [hb, hf90])]
          rfl
        · rw [getD_set_ne _ _ _ _ _ hjf, getD_set_ne _ _ _ _ _ hjt,
              getD_set_ne _ _ _ _ _ hjt, getD_set_ne _ _ _ _ _ hjf,
              getD_set_ne _ _ _ _ _ hjt]
    · rw [hUk, hpcU, hDk, List.set_set,
          getD_set_self _ _ _ _ (by simp [hk8, hkm8]),
          xor_lor_cancel, set_getD_self _ _ (by simp [hk8, hkm8]), List.set_set,
          getD_set_self _ _ _ _ (by rw [hk8]; exact type_of_lt8 _),
          xor_or_restore hcbK, set_getD_self _ _ (by rw [hk8]; exact type_of_lt8 _)]
    · rw [hUc, hpcU, hDc, List.set_set,
          getD_set_self _ _ _ _ (by simp [hc2, hcm2]),
          xor_lor_cancel, set_getD_self _ _ (by simp [hc2, hcm2]), List.set_set,
          getD_set_self _ _ _ _ (by rw [hc2]; exact color_of_lt2 hcap16),
          xor_or_restore hcbC, set_getD_self _ _ (by rw [hc2]; exact color_of_lt2 hcap16)]
    · rw [hUn, hDn, List.set_set,
          getD_set_self _ _ _ _ (by rw [hn16]; exact hcap16),
          Nat.sub_add_cancel hcnt, set_getD_self _ _ (by rw [hn16]; exact hcap16)]
    · rw [hUs, hDs]
      exact flipColor_flipColor hstm
    · rw [hUg, hDg]
      omega
    · rw [hUt, hDt]


/-! # Claim C10: invariants of `chased` -/

/-- Bitboard inclusion. -/
def SubBB (a b : Bitboard) : Prop := ∀ i, a.testBit i = true → b.testBit i = true

theorem subBB_zero (b : Bitboard) : SubBB 0 b := fun i hi => by
  rw [Nat.zero_testBit] at hi; cases hi

theorem subBB_refl (a : Bitboard) : SubBB a a := fun _ h => h

theorem subBB_lor {a b P : Bitboard} (ha : SubBB a P) (hb : SubBB b P) :
    SubBB (a ||| b) P := fun i hi => by
  rw [Nat.testBit_lor] at hi
  rcases Bool.or_eq_true_iff.mp hi with h | h
  exacts [ha i h, hb i h]

theorem subBB_land_left {a P : Bitboard} (b : Bitboard) (ha : SubBB a P) :
    SubBB (a &&& b) P := fun i hi => by
  rw [Nat.testBit_land, Bool.and_eq_true] at hi
  exact ha i hi.1

theorem subBB_land_right {b P : Bitboard} (a : Bitboard) (hb : SubBB b P) :
    SubBB (a &&& b) P := fun i hi => by
  rw [Nat.testBit_land, Bool.and_eq_true] at hi
  exact hb i hi.2

theorem subBB_sqBB {s : Nat} {P : Bitboard} (h : P.testBit s = true) : SubBB (sqBB s) P :=
  fun i hi => by
    rw [sqBB_testBit] at hi
    have hs : s = i := of_decide_eq_true hi
    subst hs
    exact h

theorem subBB_piecesCT (pos : Position) (c : Color) (t : PieceType) :
    SubBB (piecesCT pos c t) (piecesC pos c) := subBB_land_left _ (subBB_refl _)

theorem subBB_piecesCT2 (pos : Position) (c : Color) (t1 t2 : PieceType) :
    SubBB (piecesCT2 pos c t1 t2) (piecesC pos c) := subBB_land_left _ (subBB_refl _)

theorem subBB_piecesCT3 (pos : Position) (c : Color) (t1 t2 t3 : PieceType) :
    SubBB (piecesCT3 pos c t1 t2 t3) (piecesC pos c) := subBB_land_left _ (subBB_refl _)

theorem land_eq_self_of_subBB {a b : Bitboard} (h : SubBB a b) : a &&& b = a := by
  apply Nat.eq_of_testBit_eq
  intro i
  rw [Nat.testBit_land]
  cases ha : a.testBit i
  · simp
  · simp [h i ha]

theorem mem_squaresOf {s : Nat} {bb : Bitboard} (h : s ∈ squaresOf bb) :
    bb.testBit s = true := (List.mem_filter.mp h).2

/-- Invariant preservation through a `pop_lsb`-style loop. -/
theorem foldl_preserve {α : Type} (P : Bitboard → Prop) (step : Bitboard → α → Bitboard) :
    ∀ (l : List α), (∀ b a, a ∈ l → P b → P (step b a)) →
      ∀ b0, P b0 → P (l.foldl step b0)
  | [], _, b0, h0 => h0
  | x :: xs, hstep, b0, h0 =>
    foldl_preserve P step xs (fun b a ha hb => hstep b a (List.mem_cons_of_mem x ha) hb)
      (step b0 x) (hstep b0 x (List.mem_cons_self x xs) h0)

/-- The `addChased` helper only ever adds own pieces. -/
theorem addChased_sub (pos : Position) (stm : Color) (pins : Bitboard)
    (attackerSq : Nat) (attackerType : PieceType) (attacks0 b : Bitboard)
    (hatt : SubBB attacks0 (piecesC pos stm)) (hb : SubBB b (piecesC pos stm)) :
    SubBB (addChased pos stm pins attackerSq attackerType attacks0 b) (piecesC pos stm) := by
  simp only [addChased]
  split
  · apply foldl_preserve (fun x => SubBB x (piecesC pos stm))
    · intro bacc s hmem hbacc
      split
      · apply subBB_lor hbacc
        apply subBB_sqBB
        have hs := mem_squaresOf hmem
        revert hs
        split <;>
          · intro hs
            rw [Nat.testBit_land, Bool.and_eq_true] at hs
            have h1 := hs.1
            rw [Nat.testBit_land, Bool.and_eq_true] at h1
            exact hatt _ h1.1
      · exact hbacc
    · split
      · split
        · exact subBB_lor (subBB_lor hb (subBB_land_right _ (subBB_piecesCT pos stm ROOK)))
            (subBB_land_right _ (subBB_piecesCT3 pos stm ROOK CANNON KNIGHT))
        · exact subBB_lor hb (subBB_land_right _ (subBB_piecesCT3 pos stm ROOK CANNON KNIGHT))
      · split
        · exact subBB_lor hb (subBB_land_right _ (subBB_piecesCT pos stm ROOK))
        · exact hb
  · exact hb

/-- The direct-attack section only reports own pieces. -/
theorem chasedDirect_sub (pos : Position) (pins : Bitboard) :
    SubBB (chasedDirect pos pins) (piecesC pos pos.sideToMove) := by
  simp only [chasedDirect]
  split
  · apply addChased_sub
    · split
      · exact subBB_land_left _ (subBB_land_right _ (subBB_refl _))
      · exact subBB_land_right _ (subBB_refl _)
    · exact subBB_zero _
  · exact subBB_zero _

/-- The discovered-attack section only adds own pieces to the accumulator. -/
theorem chasedDiscovered_sub (pos : Position) (pins b1 : Bitboard)
    (hb1 : SubBB b1 (piecesC pos pos.sideToMove)) :
    SubBB (chasedDiscovered pos pins b1) (piecesC pos pos.sideToMove) := by
  simp only [chasedDiscovered]
  apply foldl_preserve (fun x => SubBB x (piecesC pos pos.sideToMove)) _ _ _ _ hb1
  intro b s _ hbP
  exact addChased_sub _ _ _ _ _ _ _
    (subBB_land_left _ (subBB_land_left _ (subBB_refl _))) hbP

/-- The real-roots / discovered-checks section only adds own pieces. -/
theorem chasedRoots_sub (pos : Position) (b2 : Bitboard)
    (hb2 : SubBB b2 (piecesC pos pos.sideToMove)) :
    SubBB (chasedRoots pos b2) (piecesC pos pos.sideToMove) := by
  simp only [chasedRoots]
  split
  · apply foldl_preserve (fun x => SubBB x (piecesC pos pos.sideToMove))
    · intro b s _ hbP
      apply foldl_preserve (fun x => SubBB x (piecesC pos pos.sideToMove))
      · intro b' s2 hmem hbP'
        split
        · apply subBB_lor hbP'
          apply subBB_sqBB
          have hs := mem_squaresOf hmem
          rw [Nat.testBit_land, Bool.and_eq_true] at hs
          have h1 := hs.1
          revert h1
          split <;>
            · intro h1
              rw [Nat.testBit_land, Bool.and_eq_true] at h1
              exact h1.1
        · exact hbP'
      · apply subBB_lor hbP
        apply subBB_land_left
        split <;> exact subBB_land_left _ (subBB_refl _)
    · apply foldl_preserve (fun x => SubBB x (piecesC pos pos.sideToMove))
      · intro b s _ hbP
        apply foldl_preserve (fun x => SubBB x (piecesC pos pos.sideToMove))
        · intro b' s2 hmem hbP'
          split
          · apply subBB_lor hbP'
            apply subBB_sqBB
            have hs := mem_squaresOf hmem
            revert hs
            split <;>
              · intro hs
                rw [Nat.testBit_land, Bool.and_eq_true] at hs
                have h1 := hs.1
                rw [Nat.testBit_land, Bool.and_eq_true] at h1
                exact h1.1
          · exact hbP'
        · exact hbP
      · exact hb2
  · exact hb2

/-- **C10.** `chased()` returns the empty bitboard whenever the recorded move
is `MOVE_NONE`, and in every state — reachable ones included — its result is
a subset of `pieces(sideToMove)` (stated as the bitboard absorption equation):
only pieces of the current side to move are ever reported as chased. -/
theorem c10_chased_invariants (pos : Position) :
    ((stHead pos).move = MOVE_NONE → chased pos = 0) ∧
    chased pos &&& piecesC pos pos.sideToMove = chased pos := by
  have hsub : SubBB (chased pos) (piecesC pos pos.sideToMove) := by
    unfold chased
    split
    · exact subBB_zero _
    · exact chasedRoots_sub pos _ (chasedDiscovered_sub pos _ _ (chasedDirect_sub pos _))
  refine ⟨?_, land_eq_self_of_subBB hsub⟩
  intro hmn
  unfold chased
  rw [if_pos hmn]

/-- A concrete position with a capture available: White king d0, rook a0;
Black king e9, pawn a4; White to move. -/
def testPosB : Position :=
  [(make_piece WHITE KING, 3), (make_piece BLACK KING, 85), (make_piece WHITE ROOK, 0),
   (make_piece BLACK PAWN, 36)].foldl (fun p x => put_piece p x.1 x.2) {}

/-- Witness for C1 at the capture a0xa4 in `testPosB`. -/
theorem c1_do_undo_roundtrip_witness :
    (undo_move (do_move testPosB (mkMove 0 36) false) (mkMove 0 36)).board = testPosB.board ∧
    (undo_move (do_move testPosB (mkMove 0 36) false) (mkMove 0 36)).byKind = testPosB.byKind ∧
    (undo_move (do_move testPosB (mkMove 0 36) false) (mkMove 0 36)).byColor = testPosB.byColor ∧
    (undo_move (do_move testPosB (mkMove 0 36) false) (mkMove 0 36)).pieceCount
      = testPosB.pieceCount ∧
    (undo_move (do_move testPosB (mkMove 0 36) false) (mkMove 0 36)).sideToMove
      = testPosB.sideToMove ∧
    (undo_move (do_move testPosB (mkMove 0 36) false) (mkMove 0 36)).gamePly
      = testPosB.gamePly ∧
    (undo_move (do_move testPosB (mkMove 0 36) false) (mkMove 0 36)).stack = testPosB.stack :=
  c1_do_undo_roundtrip testPosB (mkMove 0 36) false (by decide) (by decide) (by decide)
    (by decide) (by decide) (by decide) (by decide) (by decide) (by decide) (by decide)

/-- Witness for C2 at the rook move a0-a4 in `testPosA`. -/
theorem c2_legal_characterization_witness :
    legal testPosA (mkMove 0 36) = true ↔
      (rookAtt (if type_of (moved_piece testPosA (mkMove 0 36)) = KING then to_sq (mkMove 0 36)
            else kingSq testPosA testPosA.sideToMove)
          ((piecesAll testPosA ^^^ sqBB (from_sq (mkMove 0 36))) ||| sqBB (to_sq (mkMove 0 36)))
        &&& piecesCT testPosA (flipColor testPosA.sideToMove) KING = 0 ∧
       (type_of (moved_piece testPosA (mkMove 0 36)) = KING →
         attackers_to testPosA (to_sq (mkMove 0 36))
             ((piecesAll testPosA ^^^ sqBB (from_sq (mkMove 0 36))) ||| sqBB (to_sq (mkMove 0 36)))
           &&& piecesC testPosA (flipColor testPosA.sideToMove) = 0) ∧
       (type_of (moved_piece testPosA (mkMove 0 36)) ≠ KING →
         attackers_to testPosA (kingSq testPosA testPosA.sideToMove)
             ((piecesAll testPosA ^^^ sqBB (from_sq (mkMove 0 36))) ||| sqBB (to_sq (mkMove 0 36)))
           &&& piecesC testPosA (flipColor testPosA.sideToMove)
           &&& bbNot (sqBB (to_sq (mkMove 0 36))) = 0)) :=
  c2_legal_characterization testPosA (mkMove 0 36) (by decide) (by decide) (by decide)
    (by decide) (by decide) (by decide) (by decide) (by decide)

/-! # Claim C8: blockers and pinners -/

/-- Union of a list of bitboards. -/
def unionBB (l : List Bitboard) : Bitboard := l.foldr (fun a b => a ||| b) 0

theorem unionBB_cons (x : Bitboard) (l : List Bitboard) :
    unionBB (x :: l) = x ||| unionBB l := rfl

/-- The sniper loop of `blockers_for_king` accumulates independent per-sniper
contributions: the fold is the union of what each sniper adds. -/
theorem foldl_blockers_union (bfun : Nat → Bitboard) (cond pin : Nat → Prop)
    [DecidablePred cond] [DecidablePred pin] :
    ∀ (l : List Nat) (a1 a2 : Bitboard),
      (l.foldl (fun acc q =>
          if cond q then (acc.1 ||| bfun q, if pin q then acc.2 ||| sqBB q else acc.2)
          else acc) (a1, a2))
        = (a1 ||| unionBB (l.map (fun q => if cond q then bfun q else 0)),
           a2 ||| unionBB (l.map (fun q => if cond q ∧ pin q then sqBB q else 0))) := by
  intro l
  induction l with
  | nil =>
    intro a1 a2
    simp [unionBB, Nat.or_zero]
  | cons x xs ih =>
    intro a1 a2
    simp only [List.foldl_cons, List.map_cons]
    rw [unionBB_cons, unionBB_cons]
    by_cases hc : cond x
    · by_cases hp : pin x
      · rw [if_pos hc, if_pos hp, if_pos hc, if_pos ⟨hc, hp⟩, ih]
        rw [Nat.or_assoc, Nat.or_assoc]
      · rw [if_pos hc, if_neg hp, if_pos hc, if_neg (fun h => hp h.2), ih]
        rw [Nat.or_assoc, Nat.zero_or]
    · rw [if_neg hc, if_neg hc, if_neg (fun h => hc h.1), ih]
      rw [Nat.zero_or, Nat.zero_or]

/-- **C8 (amended).** `blockers_for_king(sliders, s)` (blockers as the first
component, the written-back `pinners` as the second): the blocker set is the
union, over every sniper — a rook, cannon or king of `sliders` on a rook ray
of `s`, or a knight of `sliders` on a knight-attack ray — of the pieces on
the ray between the sniper and `s`, counted in the occupancy from which ALL
non-cannon snipers have been removed (for a cannon sniper: the full occupancy
less the sniper itself), kept exactly when that count is one for a non-cannon
sniper and two for a cannon sniper; and the sniper enters `pinners` exactly
when additionally its own (kept) contribution holds a piece of the colour of
the occupant of `s`. -/
theorem c8_blockers_characterization (pos : Position) (sliders : Bitboard) (s : Nat)
    (snipers occ : Bitboard)
    (hsn : snipers = ((rookAtt s 0
        &&& (piecesT pos ROOK ||| piecesT pos CANNON ||| piecesT pos KING))
        ||| (knightAtt s 0 &&& piecesT pos KNIGHT)) &&& sliders)
    (hocc : occ = piecesAll pos ^^^ (snipers &&& bbNot (piecesT pos CANNON))) :
    blockers_for_king pos sliders s
      = (unionBB ((squaresOf snipers).map (fun q =>
            let b := between_bb s q &&&
              (if type_of (piece_on pos q) = CANNON then piecesAll pos ^^^ sqBB q else occ)
            if b ≠ 0 ∧ ((¬ type_of (piece_on pos q) = CANNON ∧ ¬ more_than_one b) ∨
                (type_of (piece_on pos q) = CANNON ∧ popcount b = 2)) then b else 0)),
         unionBB ((squaresOf snipers).map (fun q =>
            let b := between_bb s q &&&
              (if type_of (piece_on pos q) = CANNON then piecesAll pos ^^^ sqBB q else occ)
            if (b ≠ 0 ∧ ((¬ type_of (piece_on pos q) = CANNON ∧ ¬ more_than_one b) ∨
                (type_of (piece_on pos q) = CANNON ∧ popcount b = 2))) ∧
               b &&& piecesC pos (color_of (piece_on pos s)) ≠ 0 then sqBB q else 0))) := by
  subst hsn
  subst hocc
  simp only [blockers_for_king]
  exact (foldl_blockers_union _ _ _ _ 0 0).trans (by rw [Nat.zero_or, Nat.zero_or])

/-- White king e0, Black king d9, Black rooks e5 and e9: two aligned snipers
on the same file as the white king. -/
def cexPos8 : Position :=
  [(make_piece WHITE KING, 4), (make_piece BLACK KING, 84), (make_piece BLACK ROOK, 49),
   (make_piece BLACK ROOK, 85)].foldl (fun p x => put_piece p x.1 x.2) {}

/-- Witness for C8: in `cexPos8` both per-sniper contributions are dropped,
so blockers and pinners are both empty. -/
theorem c8_blockers_characterization_witness :
    blockers_for_king cexPos8 (piecesC cexPos8 BLACK) 4 = (0, 0) := by
  rw [c8_blockers_characterization cexPos8 (piecesC cexPos8 BLACK) 4 _ _ rfl rfl]
  decide

/-- Counterexample to C8 as stated: in `cexPos8` the rook sniper on e9
(square 85) sees exactly one piece on its full-board ray to the white king on
e0 (square 4) — the rook on e5 (square 49) — so the claim's reading puts
square 49 in the blocker set; but the code counts the ray in an occupancy
from which the non-cannon sniper on e5 has itself been removed, finds it
empty, and returns no blockers at all. -/
theorem c8_counterexample :
    (rookAtt 4 0 &&& piecesT cexPos8 ROOK &&& piecesC cexPos8 BLACK).testBit 85 = true ∧
    (between_bb 4 85 ^^^ sqBB 85) &&& piecesAll cexPos8 = sqBB 49 ∧
    (blockers_for_king cexPos8 (piecesC cexPos8 BLACK) 4).1.testBit 49 = false ∧
    (blockers_for_king cexPos8 (piecesC cexPos8 BLACK) 4).1 = 0 := by
  refine ⟨by decide, by decide, by decide, by decide⟩

/-! # Claims C3 and C9: repetition scoring -/

theorem stHead_eq_getD (pos : Position) : stHead pos = pos.stack.getD 0 default := by
  cases h : pos.stack <;> simp [stHead, h]

theorem undo_move_board_zero (m : Move) : undo_move_board 0 m = 0 := by
  simp [undo_move_board, Nat.zero_testBit]

theorem repResult_quiet (p : Nat) : repResult false false 0 0 p = VALUE_DRAW := by
  simp [repResult]

theorem repResult_perp_us (cT cU : Bitboard) (p : Nat) :
    repResult false true cT cU p = -VALUE_MATE + (p : Int) := by
  simp [repResult]

/-- Once both perpetual flags are down and both chase accumulators empty they
stay so, whatever the stack holds: any repetition the walk still finds scores
`VALUE_DRAW`. -/
theorem repLoop_zero (stack : List StateInfo) (stKey pfn ply : Nat) :
    ∀ (fuel i cnt : Nat),
      repLoop stack stKey pfn ply i fuel cnt false false 0 0 = none ∨
      repLoop stack stKey pfn ply i fuel cnt false false 0 0 = some VALUE_DRAW := by
  intro fuel
  induction fuel with
  | zero => intro i cnt; exact Or.inl rfl
  | succ fuel ih =>
    intro i cnt
    simp only [repLoop]
    split
    · exact Or.inl rfl
    · simp only [undo_move_board_zero, Nat.zero_and, Bool.false_and, ite_self]
      by_cases hhit : (stack.getD i default).key = stKey ∧ cnt + 1 = (if ply > i then 1 else 2)
      · rw [if_pos hhit]
        right
        rw [repResult_quiet]
      · rw [if_neg hhit]
        exact ih (i + 2) _

/-- With the opponents' perpetual flag already down and ours up — our checks
present on every odd ply within `pliesFromNull` — any repetition the walk
finds scores the losing mate score for us. -/
theorem repLoop_perpetual_us (stack : List StateInfo) (stKey pfn ply : Nat)
    (hodd : ∀ j, j % 2 = 1 → j ≤ pfn → (stack.getD j default).checkersBB ≠ 0) :
    ∀ (fuel i cnt : Nat) (cThem cUs : Bitboard), i % 2 = 0 →
      repLoop stack stKey pfn ply i fuel cnt false true cThem cUs = none ∨
      repLoop stack stKey pfn ply i fuel cnt false true cThem cUs
        = some (-VALUE_MATE + (ply : Int)) := by
  intro fuel
  induction fuel with
  | zero => intro i cnt cThem cUs _; exact Or.inl rfl
  | succ fuel ih =>
    intro i cnt cThem cUs hi
    simp only [repLoop]
    split
    · exact Or.inl rfl
    · simp only [Bool.false_and, Bool.true_and]
      have hpUs : (if i + 1 ≤ pfn then
            decide ((stack.getD (i + 1) default).checkersBB ≠ 0)
          else true) = true := by
        by_cases h2 : i + 1 ≤ pfn
        · rw [if_pos h2]
          exact decide_eq_true (hodd (i + 1) (by omega) h2)
        · rw [if_neg h2]
      rw [hpUs]
      by_cases hhit : (stack.getD i default).key = stKey ∧ cnt + 1 = (if ply > i then 1 else 2)
      · rw [if_pos hhit]
        right
        rw [repResult_perp_us]
      · rw [if_neg hhit]
        exact ih (i + 2) _ _ _ (by omega)

/-- **C3 (amended).** The backward walk of `is_repeated`: whenever it meets a
state whose key equals `st->key` and the match count reaches 1 strictly after
the search root (`ply > i`) or 2 at or before it, it returns a result
(`return true`), scored by the table — perpetual check by both sides
`VALUE_DRAW`, by them only `VALUE_MATE − ply`, by us only `−VALUE_MATE +
ply`; no perpetual check but persistent chase by them **only** `VALUE_MATE −
ply`, by us **only** `−VALUE_MATE + ply`; every other case — including a
persistent chase by **both** sides — `VALUE_DRAW`. -/
theorem c3_repetition_scoring (stack : List StateInfo) (stKey pfn ply i fuel cnt : Nat)
    (pThem pUs : Bool) (cThem cUs : Bitboard)
    (hle : i ≤ pfn)
    (hkey : (stack.getD i default).key = stKey)
    (hcnt : cnt + 1 = if ply > i then 1 else 2) :
    (repLoop stack stKey pfn ply i (fuel + 1) cnt pThem pUs cThem cUs
      = some (repResult (pThem && ((stack.getD i default).checkersBB ≠ 0)) pUs
          (if i ≠ pfn then
            undo_move_board cThem (stack.getD (i - 1) default).move
              &&& (stack.getD i default).chasedBB
           else cThem) cUs ply)) ∧
    (∀ (pT pU : Bool) (cT cU : Bitboard) (p : Nat),
      repResult pT pU cT cU p =
        if pT ∧ pU then VALUE_DRAW
        else if pT then VALUE_MATE - (p : Int)
        else if pU then -VALUE_MATE + (p : Int)
        else if cT ≠ 0 ∧ cU = 0 then VALUE_MATE - (p : Int)
        else if cU ≠ 0 ∧ cT = 0 then -VALUE_MATE + (p : Int)
        else VALUE_DRAW) := by
  constructor
  · simp only [repLoop]
    rw [if_neg (by omega : ¬ i > pfn), if_pos ⟨hkey, hcnt⟩]
  · intro pT pU cT cU p
    cases pT <;> cases pU <;>
      by_cases hcT : cT = 0 <;> by_cases hcU : cU = 0 <;>
        simp [repResult, hcT, hcU]

/-- A synthetic `StateInfo` chain, current state first: five plies, equal
keys at plies 0 and 4, no checks anywhere, and persistent chase sets for
BOTH sides (ours on square 10, theirs on square 11). -/
def cexStack3 : List StateInfo :=
  [{ pliesFromNull := 4
     key := 99
     chasedBB := sqBB 10 },
   { chasedBB := sqBB 11 },
   { chasedBB := sqBB 10 },
   { chasedBB := sqBB 11 },
   { key := 99 }]

/-- A position carrying the `cexStack3` chain. -/
def cexPos3 : Position := { stack := cexStack3 }

/-- Witness for C3: the walk of `cexStack3` called after the root (`ply = 5`)
hits at its first step and scores it. -/
theorem c3_repetition_scoring_witness :
    repLoop cexStack3 99 4 5 4 1 0 false false (sqBB 10) (sqBB 11) = some VALUE_DRAW := by
  rw [(c3_repetition_scoring cexStack3 99 4 5 4 0 0 false false (sqBB 10) (sqBB 11)
    (by decide) (by decide) (by decide)).1]
  decide

/-- Counterexample to C3 as stated: in `cexPos3` the repetition is a
persistent chase by them (the chase-by-them accumulator is nonempty at the
hit), yet the result is `VALUE_DRAW`, not `VALUE_MATE − ply` — the claim's
chase-by-them row omits that a simultaneous chase by us turns the score into
a draw. -/
theorem c3_counterexample :
    is_repeated cexPos3 5 = some VALUE_DRAW ∧
    undo_move_board (stHead cexPos3).chasedBB (cexPos3.stack.getD 1 default).move
      &&& (cexPos3.stack.getD 2 default).chasedBB ≠ 0 ∧
    (VALUE_DRAW : Int) ≠ VALUE_MATE - (5 : Int) := by
  refine ⟨by decide, by decide, by decide⟩

/-- **C9 (amended).** Part 1 of the claim additionally needs empty chase
sets: with no checker bitboards AND no persistently chased pieces recorded
anywhere along the stack, any result `is_repeated` returns is `VALUE_DRAW`;
with checker bitboards on every one of our (odd) plies within
`pliesFromNull` and none on their ply 0, any result it returns is the losing
mate score `−VALUE_MATE + ply` for us. -/
theorem c9_repetition_decidability (pos : Position) (ply : Nat) :
    ((∀ j : Nat, (pos.stack.getD j default).checkersBB = 0 ∧
        (pos.stack.getD j default).chasedBB = 0) →
      is_repeated pos ply = none ∨ is_repeated pos ply = some VALUE_DRAW) ∧
    ((∀ j : Nat, j % 2 = 0 → (pos.stack.getD j default).checkersBB = 0) →
     (∀ j : Nat, j % 2 = 1 → j ≤ (stHead pos).pliesFromNull →
        (pos.stack.getD j default).checkersBB ≠ 0) →
      is_repeated pos ply = none ∨
      is_repeated pos ply = some (-VALUE_MATE + (ply : Int))) := by
  have hfa : ∀ x : Bool, (decide ((0 : Bitboard) ≠ 0) && x) = false := fun x => rfl
  constructor
  · intro h
    simp only [is_repeated]
    split
    · have e0 : (stHead pos).checkersBB = 0 := by
        rw [stHead_eq_getD]; exact (h 0).1
      have e0c : (stHead pos).chasedBB = 0 := by
        rw [stHead_eq_getD]; exact (h 0).2
      rw [e0, e0c, (h 1).1, (h 1).2]
      simp only [hfa, undo_move_board_zero, Nat.zero_and]
      exact repLoop_zero pos.stack (stHead pos).key (stHead pos).pliesFromNull ply
        (stHead pos).pliesFromNull 4 0
    · exact Or.inl rfl
  · intro heven hodd
    simp only [is_repeated]
    split
    · rename_i hge
      have e0 : (stHead pos).checkersBB = 0 := by
        rw [stHead_eq_getD]; exact heven 0 rfl
      rw [e0, decide_eq_true (hodd 1 rfl (by omega)), decide_eq_true (hodd 3 rfl (by omega))]
      simp only [hfa, Bool.true_and]
      exact repLoop_perpetual_us pos.stack (stHead pos).key (stHead pos).pliesFromNull ply
        hodd (stHead pos).pliesFromNull 4 0 _ _ (by omega)
    · exact Or.inl rfl

/-- Witness for C9 at the empty starting position record. -/
theorem c9_repetition_decidability_witness :
    is_repeated ({} : Position) 0 = none ∨ is_repeated ({} : Position) 0 = some VALUE_DRAW :=
  (c9_repetition_decidability {} 0).1 (fun j => by cases j <;> exact ⟨rfl, rfl⟩)

/-- A synthetic `StateInfo` chain with three equal keys (plies 0, 4, 8), no
checks anywhere, and a persistent chase by them of the piece on square 10. -/
def cexStack9 : List StateInfo :=
  [{ pliesFromNull := 8
     key := 99
     chasedBB := sqBB 10 },
   {},
   { chasedBB := sqBB 10 },
   {},
   { key := 99
     chasedBB := sqBB 10 },
   {},
   { chasedBB := sqBB 10 },
   {},
   { key := 99 }]

/-- A position carrying the `cexStack9` chain. -/
def cexPos9 : Position := { stack := cexStack9 }

/-- Counterexample to C9 as stated: `cexPos9` has three identical keys along
the stack (plies 0, 4 and 8) and no checker bitboard on any ply, yet
`is_repeated` scores the repetition `VALUE_MATE`, not `VALUE_DRAW`: the
persistently chased piece on square 10 makes the score a mate score although
no check is ever delivered. -/
theorem c9_counterexample :
    ((cexPos9.stack.getD 0 default).key = (cexPos9.stack.getD 4 default).key ∧
     (cexPos9.stack.getD 0 default).key = (cexPos9.stack.getD 8 default).key) ∧
    cexPos9.stack.all (fun st => decide (st.checkersBB = 0)) = true ∧
    is_repeated cexPos9 0 = some (VALUE_MATE - (0 : Int)) ∧
    (VALUE_MATE - (0 : Int)) ≠ VALUE_DRAW := by
  refine ⟨⟨by decide, by decide⟩, by decide, by decide, by decide⟩

/-- **C6.** Terminal cases of the exchange loop of `see_ge`. At any iteration
of `seeLoop` (the `while (true)` loop of `Position::see_ge`), write `stm` for
the side to move of the iteration (the loop flips the side first) and `sA` for
its attacker set after the pin filter — pinned pieces are excluded exactly
when a pinner of `stm`'s king still stands in `occupied`. Under the loop's
invariant `res = decide (stm ≠ us)` (maintained from `res = 1` at entry, `stm`
and `res` flipping together): (1) if `stm` has no attacker of the contested
square at all, or (2) if the pin-filtered set `sA` is empty, the loop returns
`decide (stm ≠ us)` — side `stm` loses the exchange; (3) if `sA` is nonempty
but holds no pawn, elephant, advisor, cannon, knight or rook — so `stm`
captures with its king — the result is `!res` reversed to `res` exactly when
the opponent still has attackers remaining in the pool. -/
theorem c6_see_exchange_terminal (pos : Position) (toSq fuel : Nat) (stm0 us stm : Color)
    (attackers0 occupied nonCannons cannons sA : Bitboard) (res : Bool) (swap : Int)
    (hstm : stm = flipColor stm0)
    (hres : res = decide (stm ≠ us))
    (hsA : sA = if pinnersOf pos (flipColor stm) &&& occupied ≠ 0 then
        attackers0 &&& occupied &&& piecesC pos stm &&& bbNot (blockersForKingOf pos stm)
      else attackers0 &&& occupied &&& piecesC pos stm) :
    (attackers0 &&& occupied &&& piecesC pos stm = 0 →
      seeLoop pos toSq (fuel + 1) stm0 attackers0 occupied nonCannons cannons res swap
        = decide (stm ≠ us)) ∧
    (sA = 0 →
      seeLoop pos toSq (fuel + 1) stm0 attackers0 occupied nonCannons cannons res swap
        = decide (stm ≠ us)) ∧
    (sA ≠ 0 → sA &&& piecesT pos PAWN = 0 → sA &&& piecesT pos BISHOP = 0 →
      sA &&& piecesT pos ADVISOR = 0 → sA &&& piecesT pos CANNON = 0 →
      sA &&& piecesT pos KNIGHT = 0 → sA &&& piecesT pos ROOK = 0 →
      seeLoop pos toSq (fuel + 1) stm0 attackers0 occupied nonCannons cannons res swap
        = if attackers0 &&& occupied &&& bbNot (piecesC pos stm) ≠ 0 then res else !res) := by
  subst hstm
  subst hres
  subst hsA
  refine ⟨?_, ?_, ?_⟩
  · intro h0
    simp only [seeLoop]
    rw [if_pos h0]
  · intro h0
    simp only [seeLoop]
    by_cases hA0 : attackers0 &&& occupied &&& piecesC pos (flipColor stm0) = 0
    · rw [if_pos hA0]
    · rw [if_neg hA0, if_pos h0]
  · intro hne hp hb ha hc hk hr
    have hA0 : attackers0 &&& occupied &&& piecesC pos (flipColor stm0) ≠ 0 := by
      intro h0
      apply hne
      by_cases hpin : pinnersOf pos (flipColor (flipColor stm0)) &&& occupied ≠ 0
      · rw [if_pos hpin, h0, Nat.zero_and]
      · rw [if_neg hpin]
        exact h0
    simp only [seeLoop]
    rw [if_neg hA0, if_neg hne, if_neg (not_not_intro hp), if_neg (not_not_intro hb),
      if_neg (not_not_intro ha), if_neg (not_not_intro hc), if_neg (not_not_intro hk),
      if_neg (not_not_intro hr)]
    simp only [Bool.not_not]

/-- Witness for C6: in `testPosB` with empty attacker pools the exchange loop
terminates at once with Black (not the side `us`) losing. -/
theorem c6_see_exchange_terminal_witness :
    seeLoop testPosB 36 1 0 0 0 0 0 true 0 = decide ((1 : Color) ≠ (0 : Color)) :=
  (c6_see_exchange_terminal testPosB 36 0 0 0 1 0 0 0 0 0 true 0 (by decide) (by decide)
    (by decide)).1 (by decide)

/-- Witness for C10 at `testPosA`, whose head state records `MOVE_NONE`. -/
theorem c10_chased_invariants_witness :
    chased testPosA = 0 ∧
    chased testPosA &&& piecesC testPosA testPosA.sideToMove = chased testPosA :=
  ⟨(c10_chased_invariants testPosA).1 (by decide), (c10_chased_invariants testPosA).2⟩

/-! # Claim C4: FEN round-trip -/

/-- A valid square content for a FEN placement: empty, or one of the 14
piece codes of `" RACPNBK racpnbk"` (index below 16, kind not 0). -/
def validPiece (p : Piece) : Prop := p = NO_PIECE ∨ (p < 16 ∧ p % 8 ≠ 0)

instance (p : Piece) : Decidable (validPiece p) := by
  unfold validPiece; infer_instance

/-- Modelled from the spec: the canonical run-length encoding of one rank,
file A first — piece letters from `PieceToChar`, runs of empty squares
collapsed to one digit. -/
def specRankEncode : List Piece → Nat → List Char
  | [], cnt => if cnt > 0 then (Nat.repr cnt).data else []
  | p :: tl, cnt =>
    if p = NO_PIECE then specRankEncode tl (cnt + 1)
    else (if cnt > 0 then (Nat.repr cnt).data else []) ++ pieceChar p :: specRankEncode tl 0

/-- Modelled from the spec: the placement field of a FEN, ranks high to low
separated by `/`. -/
def placementOf : List (List Piece) → List Char
  | [] => []
  | [row] => specRankEncode row 0
  | row :: rows => specRankEncode row 0 ++ '/' :: placementOf rows

/-- Modelled from the spec: the normalised form of a FEN — the placement and
side fields are kept, the two placeholder fields collapse to `- -`, the
halfmove clock to `0`, and the fullmove number is emitted as
`1 + (gamePly − (sideToMove == BLACK)) / 2` of the position the FEN sets. -/
def normalise (f : String) : String :=
  let P := f.data.takeWhile (fun c => !fenIsSpace c)
  let side := ((f.data.dropWhile (fun c => !fenIsSpace c)).drop 1).headD ' '
  let pos := set f
  String.mk (P ++ [' ', side] ++ " - - 0 ".data
    ++ (Nat.repr (1 + (pos.gamePly - (if pos.sideToMove = BLACK then 1 else 0)) / 2)).data)

/-- The effect of the placement loop on one rank: the pieces of `row` go on
consecutive squares from `sq`, empties skipped. -/
def placeRowAux : Position → List Piece → Int → Position
  | pos, [], _ => pos
  | pos, p :: tl, sq =>
    placeRowAux (if p = NO_PIECE then pos else put_piece pos p sq.toNat) tl (sq + 1)

/-- The effect of the placement loop on the whole placement: ranks at `sq`,
`sq − 9`, … -/
def placeRows : Position → List (List Piece) → Int → Position
  | pos, [], _ => pos
  | pos, row :: rows, sq => placeRows (placeRowAux pos row sq) rows (sq - 9)

/-- Every real piece's FEN letter is a non-space, non-digit, non-slash
character that `PieceToChar.find` maps back to the piece. -/
theorem pieceChar_props : ∀ p : Nat, p < 16 → p % 8 ≠ 0 →
    fenIsSpace (pieceChar p) = false ∧ fenIsDigit (pieceChar p) = false ∧
    pieceChar p ≠ '/' ∧ pieceCharIdx (pieceChar p) = some p := by decide

/-- The decimal numeral of a one-digit count is one digit character. -/
theorem repr_digit : ∀ cnt : Nat, cnt < 10 → 1 ≤ cnt →
    (Nat.repr cnt).data = [Char.ofNat (48 + cnt)] := by decide

/-- Consuming a one-digit empties run advances the cursor by the count. -/
theorem placeLoop_digits (cnt : Nat) (h1 : 1 ≤ cnt) (h9 : cnt ≤ 9) :
    ∀ (rest : List Char) (sq : Int) (pos : Position),
      placeLoop ((Nat.repr cnt).data ++ rest) sq pos
        = placeLoop rest (sq + (cnt : Int)) pos := by
  interval_cases cnt <;> (intro rest sq pos; rfl)

/-- Consuming one canonically encoded rank places its pieces on consecutive
squares and advances the cursor by nine (the pending count plus the row). -/
theorem placeLoop_rank : ∀ (row : List Piece) (cnt : Nat) (tail : List Char) (sq : Int)
    (pos : Position), row.length + cnt ≤ 9 → (∀ p ∈ row, validPiece p) →
    placeLoop (specRankEncode row cnt ++ tail) sq pos
      = placeLoop tail (sq + (cnt : Int) + (row.length : Int))
          (placeRowAux pos row (sq + (cnt : Int))) := by
  intro row
  induction row with
  | nil =>
    intro cnt tail sq pos hlen _
    by_cases hc : cnt > 0
    · simp only [specRankEncode, if_pos hc, placeRowAux]
      rw [placeLoop_digits cnt hc (by omega)]
      simp [placeRowAux]
    · simp only [specRankEncode, if_neg hc]
      have h0 : cnt = 0 := by omega
      subst h0
      simp [placeRowAux]
  | cons p tl ih =>
    intro cnt tail sq pos hlen hval
    have hlen' : tl.length + 1 + cnt ≤ 9 := by simpa using hlen
    have hvp := hval p (List.mem_cons_self p tl)
    by_cases hp : p = NO_PIECE
    · simp only [specRankEncode, if_pos hp, placeRowAux]
      rw [ih (cnt + 1) tail sq pos (by omega)
        (fun q hq => hval q (List.mem_cons_of_mem p hq))]
      congr 1
      · simp only [List.length_cons]
        push_cast
        ring
      · congr 1
        push_cast
        ring
    · rcases hvp with h0 | ⟨h16, hk⟩
      · exact absurd h0 hp
      have hprops := pieceChar_props p h16 hk
      have hstep : ∀ (rest : List Char) (s : Int) (q : Position),
          placeLoop (pieceChar p :: rest) s q
            = placeLoop rest (s + 1) (put_piece q p s.toNat) := by
        intro rest s q
        show (if fenIsSpace (pieceChar p) = true then (q, rest)
          else if fenIsDigit (pieceChar p) = true then
            placeLoop rest (s + ((pieceChar p).toNat - '0'.toNat : Nat)) q
          else if pieceChar p = '/' then placeLoop rest (s - 18) q
          else match pieceCharIdx (pieceChar p) with
            | some idx => placeLoop rest (s + 1) (put_piece q idx s.toNat)
            | none => placeLoop rest s q) = _
        rw [hprops.1, hprops.2.1, hprops.2.2.2]
        simp [hprops.2.2.1]
      by_cases hc : cnt > 0
      · simp only [specRankEncode, if_neg hp, if_pos hc, List.append_assoc, List.cons_append]
        rw [placeLoop_digits cnt hc (by omega), hstep,
          ih 0 tail (sq + (cnt : Int) + 1) _ (by omega)
            (fun q hq => hval q (List.mem_cons_of_mem p hq))]
        simp only [placeRowAux, if_neg hp, Nat.cast_zero, add_zero]
        congr 1
        simp only [List.length_cons]
        push_cast
        ring
      · have h0 : cnt = 0 := by omega
        subst h0
        simp only [specRankEncode, if_neg hp, if_neg hc, List.nil_append, List.cons_append]
        rw [hstep,
          ih 0 tail (sq + 1) _ (by omega)
            (fun q hq => hval q (List.mem_cons_of_mem p hq))]
        simp only [placeRowAux, if_neg hp, Nat.cast_zero, add_zero]
        congr 1
        simp only [List.length_cons]
        push_cast
        ring

/-- Consuming the whole placement field: each rank from its cursor, `/`
dropping two ranks south, the terminating space ending the loop. -/
theorem placeLoop_placement : ∀ (rows : List (List Piece)) (r : Nat) (rest : List Char)
    (pos : Position) (sq : Int), sq = ((9 * r : Nat) : Int) → rows ≠ [] →
    rows.length ≤ r + 1 →
    (∀ row ∈ rows, row.length = 9 ∧ ∀ p ∈ row, validPiece p) →
    placeLoop (placementOf rows ++ ' ' :: rest) sq pos = (placeRows pos rows sq, rest) := by
  intro rows
  induction rows with
  | nil =>
    intro r rest pos sq _ hne _ _
    exact absurd rfl hne
  | cons row rows ih =>
    intro r rest pos sq hsq hne hlen hval
    have hrow := hval row (List.mem_cons_self row rows)
    cases rows with
    | nil =>
      simp only [placementOf]
      rw [placeLoop_rank row 0 (' ' :: rest) sq pos (by omega) hrow.2]
      simp only [Nat.cast_zero, add_zero]
      rfl
    | cons row2 rows2 =>
      simp only [placementOf, List.append_assoc, List.cons_append]
      rw [placeLoop_rank row 0 _ sq pos (by omega) hrow.2]
      simp only [Nat.cast_zero, add_zero]
      have hslash : ∀ (rest2 : List Char) (s : Int) (q : Position),
          placeLoop ('/' :: rest2) s q = placeLoop rest2 (s - 18) q := fun _ _ _ => rfl
      rw [hrow.1, hslash]
      obtain ⟨r2, rfl⟩ : ∃ r2, r = r2 + 1 := by
        cases r with
        | zero =>
          exfalso
          simp only [List.length_cons] at hlen
          omega
        | succ n => exact ⟨n, rfl⟩
      simp only [placeRows]
      rw [show sq + ((9 : Nat) : Int) - 18 = sq - 9 from by push_cast; ring]
      exact ih r2 rest (placeRowAux pos row sq) (sq - 9)
        (by push_cast at hsq ⊢; omega) (by simp)
        (by simp only [List.length_cons] at hlen ⊢; omega)
        (fun rr hrr => hval rr (List.mem_cons_of_mem row hrr))

theorem take_succ_getD (l : List Piece) (n : Nat) (h : n < l.length) :
    l.take (n + 1) = l.take n ++ [l.getD n NO_PIECE] := by
  rw [List.take_succ, List.getElem?_eq_getElem h, List.getD_eq_getElem l NO_PIECE h]
  rfl

theorem take_succ_set (l : List Piece) (n : Nat) (p : Piece) (h : n < l.length) :
    (l.set n p).take (n + 1) = l.take n ++ [p] := by
  rw [List.set_take, List.take_succ, List.getElem?_eq_getElem h, List.set_append]
  rw [if_neg (by simp only [List.length_take]; omega)]
  simp [List.length_take, Nat.min_eq_left (Nat.le_of_lt h)]

/-- Placing one rank rewrites the board segment `[n, n + row.length)` with
the row: pieces are written, empties were already empty. -/
theorem placeRowAux_board : ∀ (row : List Piece) (pos : Position) (n : Nat),
    pos.board.length = 90 → n + row.length ≤ 90 →
    (∀ k, k < row.length → pos.board.getD (n + k) NO_PIECE = NO_PIECE) →
    (placeRowAux pos row ((n : Nat) : Int)).board
      = pos.board.take n ++ row ++ pos.board.drop (n + row.length) := by
  intro row
  induction row with
  | nil =>
    intro pos n h90 _ _
    simp only [placeRowAux, List.length_nil, Nat.add_zero, List.append_nil]
    exact (List.take_append_drop n pos.board).symm
  | cons p tl ih =>
    intro pos n h90 hle hz
    have hle' : n + (tl.length + 1) ≤ 90 := by simpa using hle
    have hn : n < 90 := by omega
    simp only [placeRowAux, Int.toNat_natCast, List.length_cons]
    rw [show ((n : Int) + 1) = ((n + 1 : Nat) : Int) from by push_cast; ring]
    by_cases hp : p = NO_PIECE
    · rw [if_pos hp]
      rw [ih pos (n + 1) h90 (by omega)
        (fun k hk => by
          have h1 := hz (k + 1) (by simp only [List.length_cons]; omega)
          rwa [show n + (k + 1) = n + 1 + k from by omega] at h1)]
      have h0 := hz 0 (by simp)
      rw [Nat.add_zero] at h0
      have ht : pos.board.take (n + 1) = pos.board.take n ++ [p] := by
        rw [take_succ_getD pos.board n (by omega), h0, hp]
      rw [ht, show n + 1 + tl.length = n + (tl.length + 1) from by omega]
      simp [List.append_assoc]
    · rw [if_neg hp]
      rw [ih (put_piece pos p n) (n + 1)
        (by rw [put_piece_board, List.length_set]; exact h90) (by omega)
        (fun k hk => by
          rw [put_piece_board, getD_set_ne _ _ _ _ _ (by omega : n ≠ n + 1 + k)]
          have h1 := hz (k + 1) (by simp only [List.length_cons]; omega)
          rwa [show n + (k + 1) = n + 1 + k from by omega] at h1)]
      rw [put_piece_board, take_succ_set pos.board n p (by omega)]
      rw [show n + 1 + tl.length = n + (tl.length + 1) from by omega]
      rw [List.drop_set, if_pos (by omega)]
      simp [List.append_assoc]

theorem getD_take (l : List Piece) (m j : Nat) (hj : j < m) (hl : j < l.length) :
    (l.take m).getD j NO_PIECE = l.getD j NO_PIECE := by
  rw [List.getD_eq_getElem _ _ (by simp only [List.length_take]; omega),
    List.getD_eq_getElem _ _ hl]
  exact List.getElem_take l

/-- Placing the whole placement rewrites the board segment below `9r + 9`
with the ranks, lowest rank first. -/
theorem placeRows_board : ∀ (rows : List (List Piece)) (pos : Position) (r : Nat),
    pos.board.length = 90 → (∀ row ∈ rows, row.length = 9) →
    rows.length ≤ r + 1 → r ≤ 9 →
    (∀ j, 9 * r + 9 - 9 * rows.length ≤ j → j < 9 * r + 9 →
      pos.board.getD j NO_PIECE = NO_PIECE) →
    (placeRows pos rows ((9 * r : Nat) : Int)).board
      = pos.board.take (9 * r + 9 - 9 * rows.length) ++ rows.reverse.flatten
        ++ pos.board.drop (9 * r + 9) := by
  intro rows
  induction rows with
  | nil =>
    intro pos r h90 _ _ _ _
    simp only [placeRows, List.length_nil, Nat.mul_zero, Nat.sub_zero, List.reverse_nil,
      List.flatten_nil, List.append_nil]
    exact (List.take_append_drop (9 * r + 9) pos.board).symm
  | cons row rows ih =>
    intro pos r h90 hrows hlen hr hz
    have hrow9 : row.length = 9 := hrows row (List.mem_cons_self row rows)
    have haux := placeRowAux_board row pos (9 * r) h90 (by omega)
      (fun k hk => hz (9 * r + k) (by simp only [List.length_cons]; omega) (by omega))
    rw [hrow9] at haux
    cases rows with
    | nil =>
      rw [show placeRows pos [row] ((9 * r : Nat) : Int)
          = placeRowAux pos row ((9 * r : Nat) : Int) from rfl, haux]
      rw [show 9 * r + 9 - 9 * ([row] : List (List Piece)).length = 9 * r from by
        simp only [List.length_cons, List.length_nil]; omega]
      simp
    | cons row2 rows2 =>
      obtain ⟨r2, rfl⟩ : ∃ r2, r = r2 + 1 := by
        cases r with
        | zero =>
          exfalso
          simp only [List.length_cons] at hlen
          omega
        | succ n => exact ⟨n, rfl⟩
      have hcur : ((9 * (r2 + 1) : Nat) : Int) - 9 = ((9 * r2 : Nat) : Int) := by
        push_cast
        ring
      rw [show placeRows pos (row :: row2 :: rows2) ((9 * (r2 + 1) : Nat) : Int)
          = placeRows (placeRowAux pos row ((9 * (r2 + 1) : Nat) : Int)) (row2 :: rows2)
              (((9 * (r2 + 1) : Nat) : Int) - 9) from rfl, hcur]
      have h90' : (placeRowAux pos row ((9 * (r2 + 1) : Nat) : Int)).board.length = 90 := by
        rw [haux]
        simp only [List.length_append, List.length_take, List.length_drop, hrow9]
        omega
      have hz2 : ∀ j, 9 * r2 + 9 - 9 * (row2 :: rows2).length ≤ j → j < 9 * r2 + 9 →
          (placeRowAux pos row ((9 * (r2 + 1) : Nat) : Int)).board.getD j NO_PIECE
            = NO_PIECE := by
        intro j hj1 hj2
        rw [haux, List.append_assoc]
        rw [List.getD_append _ _ _ _ (by simp only [List.length_take]; omega)]
        rw [getD_take pos.board (9 * (r2 + 1)) j (by omega) (by omega)]
        refine hz j ?_ (by omega)
        simp only [List.length_cons] at hj1 ⊢
        omega
      rw [ih (placeRowAux pos row ((9 * (r2 + 1) : Nat) : Int)) r2 h90'
        (fun rr hrr => hrows rr (List.mem_cons_of_mem row hrr))
        (by simp only [List.length_cons] at hlen ⊢; omega) (by omega) hz2]
      have hA : (placeRowAux pos row ((9 * (r2 + 1) : Nat) : Int)).board.take
          (9 * r2 + 9 - 9 * (row2 :: rows2).length)
          = pos.board.take (9 * (r2 + 1) + 9 - 9 * (row :: row2 :: rows2).length) := by
        rw [haux, List.append_assoc]
        rw [List.take_append_of_le_length (by simp only [List.length_take]; omega)]
        rw [List.take_take]
        congr 1
        simp only [List.length_cons]
        omega
      have hB : (placeRowAux pos row ((9 * (r2 + 1) : Nat) : Int)).board.drop (9 * r2 + 9)
          = row ++ pos.board.drop (9 * (r2 + 1) + 9) := by
        rw [haux, List.append_assoc]
        rw [show 9 * r2 + 9 = (pos.board.take (9 * (r2 + 1))).length from by
          simp only [List.length_take]; omega]
        exact List.drop_left _ _
      rw [hA, hB]
      simp [List.reverse_cons, List.flatten_append, List.append_assoc]

/-- The source rank encoder agrees with the spec-side one. -/
theorem fenRankAux_eq_spec : ∀ (l : List Piece) (cnt : Nat),
    fenRankAux l cnt = specRankEncode l cnt := by
  intro l
  induction l with
  | nil => intro cnt; rfl
  | cons p tl ih => intro cnt; simp only [fenRankAux, specRankEncode, ih]

/-- Indexing a flattening of nine-element rows. -/
theorem flatten_getD : ∀ (ls : List (List Piece)) (k fl : Nat),
    (∀ l ∈ ls, l.length = 9) → fl < 9 →
    ls.flatten.getD (9 * k + fl) NO_PIECE = (ls.getD k []).getD fl NO_PIECE := by
  intro ls
  induction ls with
  | nil => intro k fl _ _; rfl
  | cons l ls ih =>
    intro k fl h9 hfl
    have hl9 : l.length = 9 := h9 l (List.mem_cons_self l ls)
    cases k with
    | zero =>
      simp only [Nat.mul_zero, Nat.zero_add, List.flatten_cons]
      rw [List.getD_append _ _ _ _ (by omega)]
      rfl
    | succ k =>
      simp only [List.flatten_cons]
      rw [show 9 * (k + 1) + fl = l.length + (9 * k + fl) from by omega]
      rw [List.getD_append_right _ _ _ _ (by omega), Nat.add_sub_cancel_left,
        List.getD_cons_succ]
      exact ih k fl (fun q hq => h9 q (List.mem_cons_of_mem l hq)) hfl

/-- Reading one rank of a board assembled from nine-element rows. -/
theorem rowOf_of_flatten (pos : Position) (rs : List (List Piece)) (r : Nat)
    (hb : pos.board = rs.flatten) (h9 : ∀ l ∈ rs, l.length = 9) (hr : r < rs.length) :
    rowOf pos r = rs.getD r [] := by
  have hlr : (rs.getD r []).length = 9 := by
    rw [List.getD_eq_getElem rs [] hr]
    exact h9 _ (List.getElem_mem hr)
  apply List.ext_getElem
  · simp only [rowOf, List.length_map, List.length_range, hlr]
  · intro i h1 h2
    have hi9 : i < 9 := by
      simpa [rowOf] using h1
    have hrow : (rowOf pos r)[i] = piece_on pos (mkSq i r) := by
      simp [rowOf]
    rw [hrow]
    rw [show piece_on pos (mkSq i r) = pos.board.getD (9 * r + i) NO_PIECE from rfl]
    rw [hb, flatten_getD rs r i h9 hi9]
    exact List.getD_eq_getElem _ _ h2

/-- The emitted placement of a position whose ranks read back the given rows
(rank 9 first) is the canonical placement of the rows. -/
theorem fenRanks_eq : ∀ (r : Nat) (rs : List (List Piece)) (pos : Position),
    rs.length = r + 1 →
    (∀ rank, rank ≤ r → rowOf pos rank = rs.getD (r - rank) []) →
    fenRanks pos r = placementOf rs := by
  intro r
  induction r with
  | zero =>
    intro rs pos hlen h
    match rs, hlen with
    | [row], _ =>
      show fenRankAux (rowOf pos 0) 0 = _
      rw [h 0 (Nat.le_refl 0), fenRankAux_eq_spec]
      rfl
  | succ r ihr =>
    intro rs pos hlen h
    match rs, hlen with
    | row :: rs2, hlen =>
      have hlen2 : rs2.length = r + 1 := by simpa using hlen
      show fenRankAux (rowOf pos (r + 1)) 0 ++ '/' :: fenRanks pos r = _
      rw [h (r + 1) (Nat.le_refl _), Nat.sub_self, List.getD_cons_zero, fenRankAux_eq_spec]
      rw [ihr rs2 pos hlen2 (fun rank hrank => by
        have h2 := h rank (by omega)
        rwa [show r + 1 - rank = (r - rank) + 1 from by omega, List.getD_cons_succ] at h2)]
      match rs2, hlen2 with
      | row2 :: rs3, _ => rfl

theorem digit_chars_nonspace : ∀ cnt : Nat, cnt < 10 → 1 ≤ cnt →
    ∀ c ∈ (Nat.repr cnt).data, fenIsSpace c = false := by decide

/-- The characters of a canonically encoded rank are never whitespace. -/
theorem specRankEncode_nonspace : ∀ (row : List Piece) (cnt : Nat),
    row.length + cnt ≤ 9 → (∀ p ∈ row, validPiece p) →
    ∀ c ∈ specRankEncode row cnt, fenIsSpace c = false := by
  intro row
  induction row with
  | nil =>
    intro cnt hle _ c hc
    by_cases h0 : cnt > 0
    · rw [specRankEncode, if_pos h0] at hc
      exact digit_chars_nonspace cnt (by omega) h0 c hc
    · rw [specRankEncode, if_neg h0] at hc
      cases hc
  | cons p tl ih =>
    intro cnt hle hval c hc
    have hle' : tl.length + 1 + cnt ≤ 9 := by simpa using hle
    by_cases hp : p = NO_PIECE
    · rw [specRankEncode, if_pos hp] at hc
      exact ih (cnt + 1) (by omega) (fun q hq => hval q (List.mem_cons_of_mem p hq)) c hc
    · rcases hval p (List.mem_cons_self p tl) with h0 | ⟨h16, hk⟩
      · exact absurd h0 hp
      rw [specRankEncode, if_neg hp] at hc
      rcases List.mem_append.mp hc with hc1 | hc2
      · by_cases h0 : cnt > 0
        · rw [if_pos h0] at hc1
          exact digit_chars_nonspace cnt (by omega) h0 c hc1
        · rw [if_neg h0] at hc1
          cases hc1
      · rcases List.mem_cons.mp hc2 with rfl | hc3
        · exact (pieceChar_props p h16 hk).1
        · exact ih 0 (by omega) (fun q hq => hval q (List.mem_cons_of_mem p hq)) c hc3

/-- The characters of a placement are never whitespace. -/
theorem placementOf_nonspace : ∀ (rows : List (List Piece)),
    (∀ row ∈ rows, row.length = 9 ∧ ∀ p ∈ row, validPiece p) →
    ∀ c ∈ placementOf rows, fenIsSpace c = false := by
  intro rows
  induction rows with
  | nil => intro _ c hc; cases hc
  | cons row rows ih =>
    intro hval c hc
    have hrow := hval row (List.mem_cons_self row rows)
    cases rows with
    | nil =>
      exact specRankEncode_nonspace row 0 (by omega) hrow.2 c hc
    | cons row2 rows2 =>
      rw [show placementOf (row :: row2 :: rows2)
          = specRankEncode row 0 ++ '/' :: placementOf (row2 :: rows2) from rfl] at hc
      rcases List.mem_append.mp hc with hc1 | hc2
      · exact specRankEncode_nonspace row 0 (by omega) hrow.2 c hc1
      · rcases List.mem_cons.mp hc2 with rfl | hc3
        · rfl
        · exact ih (fun rr hrr => hval rr (List.mem_cons_of_mem row hrr)) c hc3

/-- Splitting a string at its first space. -/
theorem takeWhile_space_split : ∀ (P t : List Char), (∀ c ∈ P, fenIsSpace c = false) →
    (P ++ ' ' :: t).takeWhile (fun c => !fenIsSpace c) = P ∧
    (P ++ ' ' :: t).dropWhile (fun c => !fenIsSpace c) = ' ' :: t := by
  intro P
  induction P with
  | nil => intro t _; exact ⟨rfl, rfl⟩
  | cons c P ih =>
    intro t h
    have hc := h c (List.mem_cons_self c P)
    have ihP := ih t (fun d hd => h d (List.mem_cons_of_mem c hd))
    constructor
    · rw [List.cons_append, List.takeWhile_cons, if_pos (by rw [hc]; rfl), ihP.1]
    · rw [List.cons_append, List.dropWhile_cons, if_pos (by rw [hc]; rfl), ihP.2]

theorem set_state_board (p : Position) : (set_state p).board = p.board := rfl

theorem set_state_sideToMove (p : Position) : (set_state p).sideToMove = p.sideToMove := rfl

theorem set_state_gamePly (p : Position) : (set_state p).gamePly = p.gamePly := rfl

theorem empty_board_getD : ∀ j, ({} : Position).board.getD j NO_PIECE = NO_PIECE := by
  intro j
  show (List.replicate 90 NO_PIECE).getD j NO_PIECE = NO_PIECE
  rcases Nat.lt_or_ge j 90 with hj | hj
  · rw [List.getD_eq_getElem _ _ (by simpa using hj)]
    apply List.getElem_replicate
  · rw [List.getD_eq_default _ _ (by simpa using hj)]

/-- **C4.** For every well-formed FEN string — a canonical placement of ten
nine-square ranks (high rank first, empties run-length-encoded), a space, a
side letter `w` or `b`, and any remaining fields — `fen (set f)` is the
normalised form of `f`: the same placement and side letter, the placeholder
fields collapsed to `- -`, the halfmove clock `0`, and the fullmove number
`1 + (gamePly − (sideToMove == BLACK)) / 2` of the resulting position. -/
theorem c4_fen_roundtrip (rows : List (List Piece)) (side : Char) (rest : List Char)
    (f : String)
    (hf : f = String.mk (placementOf rows ++ ' ' :: side :: rest))
    (hlen : rows.length = 10)
    (hrows : ∀ row ∈ rows, row.length = 9 ∧ ∀ p ∈ row, validPiece p)
    (hside : side = 'w' ∨ side = 'b') :
    fen (set f) = normalise f := by
  have hne : rows ≠ [] := by
    rintro rfl
    simp at hlen
  have hdata : f.data = placementOf rows ++ ' ' :: side :: rest := by rw [hf]
  have hPL := placeLoop_placement rows 9 (side :: rest) {} 81 (by norm_num) hne
    (by omega) hrows
  have hboard0 : (set f).board = (placeRows {} rows 81).board := by
    simp only [set]
    rw [hdata, hPL]
    rfl
  have hstm : (set f).sideToMove = if side = 'w' then WHITE else BLACK := by
    simp only [set]
    rw [hdata, hPL]
    rfl
  have hflat : (placeRows {} rows 81).board = rows.reverse.flatten := by
    rw [show (81 : Int) = ((9 * 9 : Nat) : Int) from by norm_num]
    rw [placeRows_board rows {} 9 rfl (fun row h => (hrows row h).1) (by omega) (by omega)
      (fun j _ _ => empty_board_getD j)]
    have h1 : 9 * 9 + 9 - 9 * rows.length = 0 := by rw [hlen]
    rw [h1, List.take_zero, List.nil_append]
    rw [show ({} : Position).board.drop (9 * 9 + 9) = [] from rfl, List.append_nil]
  have hboard : (set f).board = rows.reverse.flatten := hboard0.trans hflat
  have hTW : f.data.takeWhile (fun c => !fenIsSpace c) = placementOf rows := by
    rw [hdata]
    exact (takeWhile_space_split _ (side :: rest) (placementOf_nonspace rows hrows)).1
  have hDW : f.data.dropWhile (fun c => !fenIsSpace c) = ' ' :: side :: rest := by
    rw [hdata]
    exact (takeWhile_space_split _ (side :: rest) (placementOf_nonspace rows hrows)).2
  have hside2 : ((f.data.dropWhile (fun c => !fenIsSpace c)).drop 1).headD ' ' = side := by
    rw [hDW]
    rfl
  have hfr : fenRanks (set f) 9 = placementOf rows := by
    apply fenRanks_eq 9 rows (set f) (by omega)
    intro rank hrank
    have hb1 : rank < rows.reverse.length := by
      simp only [List.length_reverse, hlen]
      omega
    have hb2 : 9 - rank < rows.length := by
      rw [hlen]
      omega
    rw [rowOf_of_flatten (set f) rows.reverse rank hboard
      (fun l hl => (hrows l (List.mem_reverse.mp hl)).1) hb1]
    rw [List.getD_eq_getElem _ _ hb1, List.getD_eq_getElem _ _ hb2, List.getElem_reverse]
    congr 1
    simp only [List.length_reverse, hlen]
  simp only [fen, normalise]
  rw [hfr, hTW, hside2, hstm]
  rcases hside with rfl | rfl
  · rw [if_pos rfl, if_pos rfl]
    congr 1
    rw [show (Nat.repr 0).data = ['0'] from rfl]
    simp [List.append_assoc]
  · rw [if_neg (by decide : ¬('b' = 'w')), if_neg (by decide : ¬(BLACK = WHITE))]
    congr 1
    rw [show (Nat.repr 0).data = ['0'] from rfl]
    simp [List.append_assoc]

/-- The rows of the Xiangqi starting position, rank 9 first. -/
def startRows : List (List Piece) :=
  [[9, 13, 14, 10, 15, 10, 14, 13, 9],
   List.replicate 9 0,
   [0, 11, 0, 0, 0, 0, 0, 11, 0],
   [12, 0, 12, 0, 12, 0, 12, 0, 12],
   List.replicate 9 0,
   List.replicate 9 0,
   [4, 0, 4, 0, 4, 0, 4, 0, 4],
   [0, 3, 0, 0, 0, 0, 0, 3, 0],
   List.replicate 9 0,
   [1, 5, 6, 2, 7, 2, 6, 5, 1]]

/-- The starting-position FEN. -/
def startFEN : String :=
  "rnbakabnr/9/1c5c1/p1p1p1p1p/9/9/P1P1P1P1P/1C5C1/9/RNBAKABNR w - - 0 1"

/-- Witness for C4 at the starting-position FEN. -/
theorem c4_fen_roundtrip_witness : fen (set startFEN) = normalise startFEN :=
  c4_fen_roundtrip startRows 'w' " - - 0 1".data startFEN (by decide) (by decide)
    (by decide) (Or.inl rfl)

end Pikafish
